import Mathlib

/-!
Shallow embedding of `prom2jsonrs` (src/src/lib.rs): a parser for the
Prometheus text exposition format.  The three lazily compiled regular
expressions of the source are modelled as executable character-level
matchers with the `regex` crate's leftmost-first (greedy, backtracking)
semantics; the panicking failure paths are modelled as `Except.error`.
-/

namespace Prom2Json

/-- Character class `\s` of the source regexes (ASCII fragment of Unicode
whitespace; all inputs of interest are ASCII). Also used for
`split_whitespace`. -/
def isWs (c : Char) : Bool :=
  c = ' ' || c = '\t' || c = '\n' || c = '\r' || c = '\x0b' || c = '\x0c'

/-- Character class `[a-zA-Z_:]` (first char of a metric identifier). -/
def isIdentStart (c : Char) : Bool :=
  (('a' ≤ c && c ≤ 'z') || ('A' ≤ c && c ≤ 'Z')) || c = '_' || c = ':'

/-- Character class `[a-zA-Z0-9_:]` (later chars of a metric identifier,
and label names in `LABELS_REGEX`). -/
def isIdentChar (c : Char) : Bool :=
  isIdentStart c || ('0' ≤ c && c ≤ '9')

/-- Character class `[\d.]` of the numeric-value pattern. -/
def isDigitDot (c : Char) : Bool :=
  ('0' ≤ c && c ≤ '9') || c = '.'

/-- Character class `\d`. -/
def isDigitC (c : Char) : Bool :=
  '0' ≤ c && c ≤ '9'

/-- Matcher for the optional exponent group `(?:e-?\d+)?`: returns the text
the group consumes (empty when the group matches the empty string; when `e-`
is present but no digit follows, `-?` backtracks and the whole group still
matches empty, since `\d+` cannot match at `-`). -/
def matchExpo : List Char → List Char
  | 'e' :: rest =>
    if rest.head? = some '-' then
      if (rest.tail.takeWhile isDigitC).isEmpty then []
      else 'e' :: '-' :: rest.tail.takeWhile isDigitC
    else
      if (rest.takeWhile isDigitC).isEmpty then []
      else 'e' :: rest.takeWhile isDigitC
  | _ => []

/-- Matcher for the value group `(-?[\d.]+(?:e-?\d+)?|NaN)` at a fixed
position: returns the captured text, preferring the first alternative
(leftmost-first semantics). -/
def matchNumber (cs : List Char) : Option (List Char) :=
  if cs.head? = some '-' then
    if (cs.tail.takeWhile isDigitDot).isEmpty then none
    else some ('-' :: (cs.tail.takeWhile isDigitDot ++ matchExpo (cs.tail.dropWhile isDigitDot)))
  else
    if (cs.takeWhile isDigitDot).isEmpty then
      match cs with
      | 'N' :: 'a' :: 'N' :: _ => some ['N', 'a', 'N']
      | _ => none
    else some (cs.takeWhile isDigitDot ++ matchExpo (cs.dropWhile isDigitDot))

/-- Attempt of `METRIC_REGEX_NO_LABEL` = `([a-zA-Z_:][a-zA-Z0-9_:]*)\s(-?[\d.]+(?:e-?\d+)?|NaN)`
anchored at the current position; returns capture group 2 (the value text).
The greedy identifier run needs no backtracking because identifier
characters are never whitespace. -/
def matchNoLabelAt : List Char → Option (List Char)
  | [] => none
  | c :: rest =>
    if isIdentStart c then
      match rest.dropWhile isIdentChar with
      | s :: rest' => if isWs s then matchNumber rest' else none
      | [] => none
    else none

/-- Leftmost search of `METRIC_REGEX_NO_LABEL`: group 2 of the match at the
leftmost matching start position. -/
def findNoLabel : List Char → Option (List Char)
  | [] => none
  | c :: rest =>
    match matchNoLabelAt (c :: rest) with
    | some v => some v
    | none => findNoLabel rest

/-- Backtracking matcher for the tail `(.*)\}\s(-?[\d.]+(?:e-?\d+)?|NaN)` of
`METRIC_REGEX_WITH_LABEL`, entered just after the literal `{`.  The greedy
`.*` prefers extending the captured content (closing at the last viable `}`);
`.` does not match a newline.  Returns (group 1 content, group 2 value). -/
def tryClose : List Char → Option (List Char × List Char)
  | [] => none
  | c :: rest =>
    match (if c ≠ '\n' then (tryClose rest).map (fun r => (c :: r.1, r.2)) else none) with
    | some r => some r
    | none =>
      if c = '}' then
        match rest with
        | s :: rest' => if isWs s then (matchNumber rest').map (fun v => (([] : List Char), v)) else none
        | [] => none
      else none

/-- Attempt of `METRIC_REGEX_WITH_LABEL` = `[a-zA-Z_:][a-zA-Z0-9_:]*\{(.*)\}\s(-?[\d.]+(?:e-?\d+)?|NaN)`
anchored at the current position. -/
def matchWithLabelAt : List Char → Option (List Char × List Char)
  | [] => none
  | c :: rest =>
    if isIdentStart c then
      match rest.dropWhile isIdentChar with
      | '{' :: rest' => tryClose rest'
      | _ => none
    else none

/-- Leftmost search of `METRIC_REGEX_WITH_LABEL`. -/
def findWithLabel : List Char → Option (List Char × List Char)
  | [] => none
  | c :: rest =>
    match matchWithLabelAt (c :: rest) with
    | some r => some r
    | none => findWithLabel rest

/-- Attempt of `LABELS_REGEX` = `([a-zA-Z0-9_:]*)="([^"]+)"` anchored at the
current position; on success returns the (name, value) captures and the
remaining input after the match. -/
def labelMatchAt (cs : List Char) : Option ((String × String) × List Char) :=
  match cs.dropWhile isIdentChar with
  | '=' :: '"' :: rest =>
    match rest.dropWhile (fun c => c ≠ '"') with
    | '"' :: rest' =>
      if (rest.takeWhile (fun c => c ≠ '"')).isEmpty then none
      else some ((String.mk (cs.takeWhile isIdentChar),
                  String.mk (rest.takeWhile (fun c => c ≠ '"'))), rest')
    | _ => none
  | _ => none

/-- Fuel-indexed scan of `LABELS_REGEX.captures_iter`: at each position try a
match; on success continue after the match, otherwise advance one character.
One fuel unit is spent per step, and every step consumes at least one
character, so `cs.length` fuel is always enough. -/
def labelCapturesGo : Nat → List Char → List (String × String)
  | 0, _ => []
  | fuel + 1, cs =>
    match labelMatchAt cs with
    | some (p, rest) => p :: labelCapturesGo fuel rest
    | none =>
      match cs with
      | [] => []
      | _ :: t => labelCapturesGo fuel t

/-- Model of `LABELS_REGEX.captures_iter`: successive non-overlapping
leftmost matches, scanning left to right. -/
def labelCaptures (cs : List Char) : List (String × String) :=
  labelCapturesGo cs.length cs

/-- Model of `HashMap<String, String>` contents as an association list with
unique keys; `insert` overwrites in place (last write wins). -/
abbrev Labels : Type := List (String × String)

deriving instance DecidableEq for Except

/-- Model of `HashMap::insert`. -/
def hmInsert (m : List (String × String)) (k v : String) : List (String × String) :=
  if m.any (fun p => p.1 = k) then m.map (fun p => if p.1 = k then (k, v) else p)
  else m ++ [(k, v)]

/-- Error values standing for the panicking failure paths of the source. -/
inductive ParseError where
  | invalidFormat (line : String)
  | unknownMetricType (t : String)
  | indexOOB
  | missingMetadata
deriving DecidableEq, Repr

/-- Model of the string prefix test `str::starts_with`. -/
def swChars : List Char → List Char → Bool
  | [], _ => true
  | _ :: _, [] => false
  | p :: ps, c :: cs => p = c && swChars ps cs

/-- Prefix test on strings (Rust `line.starts_with(prefix_string)`). -/
def strStarts (s pre : String) : Bool := swChars pre.data s.data

/-- Model of `MetricLike::parse_from_string` (src/src/lib.rs:64-80): try the
unlabeled regex first, then the labeled one, else the panic. -/
def parse_from_string (s : String) : Except ParseError (String × Option (List (String × String))) :=
  match findNoLabel s.data with
  | some v => .ok (String.mk v, none)
  | none =>
    match findWithLabel s.data with
    | some r =>
      .ok (String.mk r.2, some ((labelCaptures r.1).foldl (fun m p => hmInsert m p.1 p.2) []))
    | none => .error (.invalidFormat s)

/-- The `Metric` struct of the source. -/
structure Metric where
  labels : Option (List (String × String))
  value : String
deriving DecidableEq, Repr

/-- The `Summary` struct of the source. -/
structure Summary where
  labels : Option (List (String × String))
  quantiles : List (String × String)
  count : String
  sum : String
deriving DecidableEq, Repr

/-- The `Histogram` struct of the source. -/
structure Histogram where
  labels : Option (List (String × String))
  buckets : List (String × String)
  count : String
  sum : String
deriving DecidableEq, Repr

/-- The `MetricType` enum of the source. -/
inductive MetricType where
  | Gauge
  | Histogram
  | Summary
deriving DecidableEq, Repr

/-- One element of a family's `data: Vec<Box<dyn MetricLike>>`. -/
inductive MetricLike where
  | metric (m : Metric)
  | histogram (h : Histogram)
  | summary (s : Summary)
deriving DecidableEq, Repr

/-- The `MetricFamily` struct of the source. -/
structure MetricFamily where
  metric_type : MetricType
  metric_name : String
  help : String
  data : List MetricLike
deriving DecidableEq, Repr

/-- The `PrometheusData` struct of the source. -/
structure PrometheusData where
  metrics : List MetricFamily
deriving DecidableEq, Repr

/-- Model of `Metric::from_string`. -/
def Metric.from_string (s : String) : Except ParseError Metric :=
  (parse_from_string s).map fun r => { labels := r.2, value := r.1 }

/-- Mutable state of `Summary::from_raw`'s loop. -/
structure SState where
  sum : String
  count : String
  labels : List (String × String)
  quantiles : List (String × String)
deriving DecidableEq, Repr

/-- Per-pair body of the `captures_iter` loop at src/src/lib.rs:118-125:
note the source inserts `(key, value)` — the literal key `"quantile"` and
the quantile text — into `quantiles`. -/
def sumLabeledFold (lq : List (String × String) × List (String × String))
    (p : String × String) : List (String × String) × List (String × String) :=
  if p.1 = "quantile" then (lq.1, hmInsert lq.2 p.1 p.2)
  else (hmInsert lq.1 p.1 p.2, lq.2)

/-- One iteration of the `Summary::from_raw` loop (src/src/lib.rs:112-129). -/
def summaryStep (name : String) (st : SState) (line : String) : Except ParseError SState :=
  if strStarts line (name ++ "_sum") then
    (parse_from_string line).map fun r => { st with sum := r.1 }
  else if strStarts line (name ++ "_count") then
    (parse_from_string line).map fun r => { st with count := r.1 }
  else
    match findWithLabel line.data with
    | some r =>
      let lq := (labelCaptures r.1).foldl sumLabeledFold (st.labels, st.quantiles)
      .ok { st with labels := lq.1, quantiles := lq.2 }
    | none => .error (.invalidFormat line)

/-- The `Summary::from_raw` loop over its lines. -/
def summaryRun (name : String) (st : SState) : List String → Except ParseError SState
  | [] => .ok st
  | line :: rest => (summaryStep name st line).bind fun st' => summaryRun name st' rest

/-- Model of `Summary::from_raw` (src/src/lib.rs:105-136); the final record
always wraps the accumulated label map in `Some`. -/
def Summary.from_raw (name : String) (raw_lines : List String) : Except ParseError Summary :=
  (summaryRun name ⟨"", "", [], []⟩ raw_lines).map fun st =>
    { labels := some st.labels, quantiles := st.quantiles, count := st.count, sum := st.sum }

/-- Mutable state of `Histogram::from_raw`'s loop. -/
structure HState where
  sum : String
  count : String
  labels : List (String × String)
  buckets : List (String × String)
deriving DecidableEq, Repr

/-- Per-pair body of the `captures_iter` loop at src/src/lib.rs:160-167: an
`le` pair inserts (bound text ↦ the line's sample value) into `buckets`. -/
def histLabeledFold (v : String) (lb : List (String × String) × List (String × String))
    (p : String × String) : List (String × String) × List (String × String) :=
  if p.1 = "le" then (lb.1, hmInsert lb.2 p.2 v)
  else (hmInsert lb.1 p.1 p.2, lb.2)

/-- One iteration of the `Histogram::from_raw` loop (src/src/lib.rs:154-171). -/
def histStep (name : String) (st : HState) (line : String) : Except ParseError HState :=
  if strStarts line (name ++ "_sum") then
    (parse_from_string line).map fun r => { st with sum := r.1 }
  else if strStarts line (name ++ "_count") then
    (parse_from_string line).map fun r => { st with count := r.1 }
  else
    match findWithLabel line.data with
    | some r =>
      let lb := (labelCaptures r.1).foldl (histLabeledFold (String.mk r.2)) (st.labels, st.buckets)
      .ok { st with labels := lb.1, buckets := lb.2 }
    | none => .error (.invalidFormat line)

/-- The `Histogram::from_raw` loop over its lines. -/
def histRun (name : String) (st : HState) : List String → Except ParseError HState
  | [] => .ok st
  | line :: rest => (histStep name st line).bind fun st' => histRun name st' rest

/-- Model of `Histogram::from_raw` (src/src/lib.rs:146-179). -/
def Histogram.from_raw (name : String) (raw_lines : List String) : Except ParseError Histogram :=
  (histRun name ⟨"", "", [], []⟩ raw_lines).map fun st =>
    { labels := some st.labels, buckets := st.buckets, count := st.count, sum := st.sum }

/-- Model of Rust `str::split_whitespace` (accumulator holds the current
token reversed). -/
def splitWsAux : List Char → List Char → List String
  | acc, [] => if acc.isEmpty then [] else [String.mk acc.reverse]
  | acc, c :: rest =>
    if isWs c then
      if acc.isEmpty then splitWsAux [] rest
      else String.mk acc.reverse :: splitWsAux [] rest
    else splitWsAux (c :: acc) rest

/-- Whitespace-delimited tokens of a string. -/
def splitWs (s : String) : List String := splitWsAux [] s.data

/-- Model of `MetricFamily::metric_name_and_type` (src/src/lib.rs:235-247);
indexing `tags[2]`/`tags[3]` out of bounds is the panic modelled by
`indexOOB`, an unrecognised keyword the unknown-metric-type panic. -/
def metric_name_and_type (type_line : String) : Except ParseError (String × MetricType) :=
  let tags := splitWs type_line
  match tags.get? 2, tags.get? 3 with
  | some name, some ty =>
    if ty = "gauge" then .ok (name, .Gauge)
    else if ty = "counter" then .ok (name, .Gauge)
    else if ty = "histogram" then .ok (name, .Histogram)
    else if ty = "summary" then .ok (name, .Summary)
    else .error (.unknownMetricType ty)
  | _, _ => .error .indexOOB

/-- Model of `MetricFamily::metric_help_fron_raw` (src/src/lib.rs:249-252,
keeping the source's spelling): `tags[3..].join(" ")`, which panics when
fewer than three tokens exist. -/
def metric_help_fron_raw (help_line : String) : Except ParseError String :=
  let tags := splitWs help_line
  if 3 ≤ tags.length then .ok (String.intercalate " " (tags.drop 3))
  else .error .indexOOB

/-- Sequential fallible map (a `Vec` built by a loop of fallible pushes):
the first error aborts the loop. -/
def exMapM (f : α → Except ParseError β) : List α → Except ParseError (List β)
  | [] => .ok []
  | a :: as => (f a).bind fun b => (exMapM f as).map fun bs => b :: bs

/-- The gauge branch of `MetricFamily::from_raw`: every remaining line
independently becomes one `Metric`. -/
def gaugeLines (raw : List String) : Except ParseError (List MetricLike) :=
  (exMapM Metric.from_string raw).map fun ms => ms.map MetricLike.metric

/-- The histogram branch of `MetricFamily::from_raw` (src/src/lib.rs:201-214):
accumulate lines into a run, close the run at each `<name>_count`-prefixed
line; a trailing unterminated run is dropped. -/
def histogramLines (name : String) : List MetricLike → List String → List String →
    Except ParseError (List MetricLike)
  | data, _, [] => .ok data
  | data, cur, line :: rest =>
    let cur' := cur ++ [line]
    if strStarts line (name ++ "_count") then
      (Histogram.from_raw name cur').bind fun h =>
        histogramLines name (data ++ [MetricLike.histogram h]) [] rest
    else histogramLines name data cur' rest

/-- The summary branch of `MetricFamily::from_raw` (src/src/lib.rs:215-225). -/
def summaryLines (name : String) : List MetricLike → List String → List String →
    Except ParseError (List MetricLike)
  | data, _, [] => .ok data
  | data, cur, line :: rest =>
    let cur' := cur ++ [line]
    if strStarts line (name ++ "_count") then
      (Summary.from_raw name cur').bind fun s =>
        summaryLines name (data ++ [MetricLike.summary s]) [] rest
    else summaryLines name data cur' rest

/-- Model of `MetricFamily::from_raw` (src/src/lib.rs:188-233): first line is
the HELP line, second the TYPE line, the rest are dispatched per type. -/
def MetricFamily.from_raw (raw : List String) : Except ParseError MetricFamily :=
  match raw with
  | [] => .error .missingMetadata
  | help_line :: rest =>
    (metric_help_fron_raw help_line).bind fun help =>
    match rest with
    | [] => .error .missingMetadata
    | type_line :: rest' =>
      (metric_name_and_type type_line).bind fun nt =>
      (match nt.2 with
        | .Gauge => gaugeLines rest'
        | .Histogram => histogramLines nt.1 [] [] rest'
        | .Summary => summaryLines nt.1 [] [] rest').map fun data =>
      { metric_type := nt.2, metric_name := nt.1, help := help, data := data }

/-- The comment-counting scan of `PrometheusData::from_string`
(src/src/lib.rs:255-277): arguments are the flushed families, the current
family buffer, the comment counter, and the remaining lines.  A family is
flushed only when a third `#` line arrives; the final buffer is never
flushed. -/
def pLines : List MetricFamily → List String → Nat → List String →
    Except ParseError (List MetricFamily)
  | metrics, _, _, [] => .ok metrics
  | metrics, cur, num, line :: rest =>
    if strStarts line "#" then
      if num = 2 then
        (MetricFamily.from_raw cur).bind fun fam =>
          pLines (metrics ++ [fam]) [line] 1 rest
      else pLines metrics (cur ++ [line]) (num + 1) rest
    else pLines metrics (cur ++ [line]) num rest

/-- Document parsing over a pre-split list of lines. -/
def PrometheusData.from_lines (lines : List String) : Except ParseError PrometheusData :=
  (pLines [] [] 0 lines).map PrometheusData.mk

/-- Strip one trailing carriage return (part of `str::lines`). -/
def stripCR (l : List Char) : List Char :=
  match l.reverse with
  | '\r' :: t => t.reverse
  | _ => l

/-- Model of Rust `str::lines`: split at `\n` (or `\r\n`), the final line
ending optional (accumulator holds the current line reversed). -/
def rustLinesAux : List Char → List Char → List (List Char)
  | acc, [] => if acc.isEmpty then [] else [acc.reverse]
  | acc, c :: rest =>
    if c = '\n' then stripCR acc.reverse :: rustLinesAux [] rest
    else rustLinesAux (c :: acc) rest

/-- The lines of a string, as Rust's `str::lines` yields them. -/
def rustLines (s : String) : List String := (rustLinesAux [] s.data).map String.mk

/-- Model of `PrometheusData::from_string` (src/src/lib.rs:256-276). -/
def PrometheusData.from_string (s : String) : Except ParseError PrometheusData :=
  PrometheusData.from_lines (rustLines s)

/-! Structured descriptions of well-formed input, used to quantify the
theorems over all inputs of a given shape. -/

/-- Abstract syntax of a value in the language of the numeric group
`-?[\d.]+(?:e-?\d+)?|NaN`: optional sign, mantissa of `[\d.]` characters,
optional exponent with optional sign, or the literal `NaN`. -/
inductive NumTok where
  | num (neg : Bool) (mant : List Char) (expo : Option (Bool × List Char))
  | nan
deriving DecidableEq, Repr

/-- Well-formedness of a `NumTok`: nonempty mantissa of `[\d.]` characters
and, when present, a nonempty all-digit exponent. -/
def NumTok.valid : NumTok → Bool
  | .num _ mant ex =>
    !mant.isEmpty && mant.all isDigitDot &&
      (match ex with
       | none => true
       | some (_, ds) => !ds.isEmpty && ds.all isDigitC)
  | .nan => true

/-- The text of a `NumTok`, exactly as written in a sample line. -/
def NumTok.render : NumTok → List Char
  | .num neg mant ex =>
    (if neg then ['-'] else []) ++ mant ++
      (match ex with
       | none => []
       | some (en, ds) => 'e' :: ((if en then ['-'] else []) ++ ds))
  | .nan => ['N', 'a', 'N']

/-- A valid metric identifier: `[a-zA-Z_:][a-zA-Z0-9_:]*`. -/
def identOk (s : String) : Bool :=
  match s.data with
  | [] => false
  | c :: rest => isIdentStart c && rest.all isIdentChar

/-- The unlabeled sample line `<name> <value>`. -/
def mkUnlabeled (name : String) (t : NumTok) : String :=
  String.mk (name.data ++ ' ' :: t.render)

/-- The text `k="v"` of one label fragment. -/
def fragRender (p : String × String) : List Char :=
  p.1.data ++ '=' :: '"' :: (p.2.data ++ ['"'])

/-- The comma-separated label fragment list between the braces. -/
def fragsRender : List (String × String) → List Char
  | [] => []
  | [p] => fragRender p
  | p :: ps => fragRender p ++ ',' :: fragsRender ps

/-- The labeled sample line `<name>{k1="v1",...} <value>`. -/
def mkLabeled (name : String) (pairs : List (String × String)) (t : NumTok) : String :=
  String.mk (name.data ++ '{' :: (fragsRender pairs ++ '}' :: ' ' :: t.render))

/-- Well-formedness of one label fragment: the name is made of
`[a-zA-Z0-9_:]` characters and the value is a nonempty run of characters
other than `"` (and other than a newline, which cannot occur inside a
line). -/
def pairOk (p : String × String) : Bool :=
  p.1.data.all isIdentChar && !p.2.data.isEmpty &&
    p.2.data.all (fun c => c ≠ '"' && c ≠ '\n')

/-- One family chunk of a document: a HELP line, a TYPE line, and sample
lines. -/
structure Chunk where
  helpLine : String
  typeLine : String
  samples : List String
deriving DecidableEq, Repr

/-- The raw lines of a chunk. -/
def Chunk.lines (c : Chunk) : List String :=
  c.helpLine :: c.typeLine :: c.samples

/-- Well-formedness of a chunk: the two metadata lines start with `#` and
no sample line does. -/
def Chunk.wf (c : Chunk) : Bool :=
  strStarts c.helpLine "#" && strStarts c.typeLine "#" &&
    c.samples.all (fun l => !strStarts l "#")

/-! General lemmas about the character-level matchers. -/

theorem ne_of_class {p : Char → Bool} {c d : Char} (hc : p c = true) (hd : p d = false) :
    c ≠ d := by
  intro he
  rw [he, hd] at hc
  cases hc

theorem takeWhile_all {p : α → Bool} {l : List α} (h : ∀ a ∈ l, p a = true) :
    l.takeWhile p = l := by
  induction l with
  | nil => rfl
  | cons a as ih =>
    rw [List.takeWhile_cons_of_pos (h a (by simp)), ih (fun x hx => h x (by simp [hx]))]

theorem dropWhile_all {p : α → Bool} {l : List α} (h : ∀ a ∈ l, p a = true) :
    l.dropWhile p = [] := by
  induction l with
  | nil => rfl
  | cons a as ih =>
    rw [List.dropWhile_cons_of_pos (h a (by simp)), ih (fun x hx => h x (by simp [hx]))]

theorem matchExpo_render {en : Bool} {ds : List Char} (hne : ds ≠ [])
    (hds : ∀ c ∈ ds, isDigitC c = true) :
    matchExpo ('e' :: ((if en then ['-'] else []) ++ ds)) =
      'e' :: ((if en then ['-'] else []) ++ ds) := by
  have htw : ds.takeWhile isDigitC = ds := takeWhile_all hds
  have hemp : ds.isEmpty = false := by
    cases ds with
    | nil => exact absurd rfl hne
    | cons d t => rfl
  cases en with
  | true =>
    show matchExpo ('e' :: '-' :: ds) = 'e' :: '-' :: ds
    have h1 : matchExpo ('e' :: '-' :: ds) =
        if (ds.takeWhile isDigitC).isEmpty then []
        else 'e' :: '-' :: ds.takeWhile isDigitC := rfl
    rw [h1, htw, hemp]
    rfl
  | false =>
    show matchExpo ('e' :: ds) = 'e' :: ds
    rcases hd : ds with _ | ⟨d, ds'⟩
    · exact absurd hd hne
    · have hm : d ≠ '-' := ne_of_class (hds d (by simp [hd])) (by decide)
      rw [← hd]
      have h1 : matchExpo ('e' :: ds) =
          if ds.head? = some '-' then
            (if (ds.tail.takeWhile isDigitC).isEmpty then []
             else 'e' :: '-' :: ds.tail.takeWhile isDigitC)
          else
            (if (ds.takeWhile isDigitC).isEmpty then []
             else 'e' :: ds.takeWhile isDigitC) := rfl
      rw [h1, if_neg (by rw [hd]; simp [hm]), htw, hemp]
      rfl

theorem takeWhile_mant {mant ex : List Char} (hall : ∀ c ∈ mant, isDigitDot c = true)
    (hex : ex = [] ∨ ∃ tl, ex = 'e' :: tl) :
    (mant ++ ex).takeWhile isDigitDot = mant ∧ (mant ++ ex).dropWhile isDigitDot = ex := by
  rcases hex with rfl | ⟨tl, rfl⟩
  · rw [List.append_nil]
    exact ⟨takeWhile_all hall, dropWhile_all hall⟩
  · constructor
    · rw [List.takeWhile_append_of_pos hall,
        List.takeWhile_cons_of_neg (by decide : ¬ (isDigitDot 'e' = true)), List.append_nil]
    · rw [List.dropWhile_append_of_pos hall,
        List.dropWhile_cons_of_neg (by decide : ¬ (isDigitDot 'e' = true))]

theorem matchNumber_core (sign : Bool) (mant E : List Char) (hne : mant ≠ [])
    (hall : ∀ c ∈ mant, isDigitDot c = true)
    (hE : matchExpo E = E) (hEshape : E = [] ∨ ∃ tl, E = 'e' :: tl) :
    matchNumber ((if sign then ['-'] else []) ++ (mant ++ E)) =
      some ((if sign then ['-'] else []) ++ (mant ++ E)) := by
  obtain ⟨htw, hdw⟩ := takeWhile_mant hall hEshape
  have hemp : ((mant ++ E).takeWhile isDigitDot).isEmpty = false := by
    rw [htw]
    cases mant with
    | nil => exact absurd rfl hne
    | cons m ms => rfl
  cases sign with
  | true =>
    show matchNumber ('-' :: (mant ++ E)) = some ('-' :: (mant ++ E))
    have h1 : matchNumber ('-' :: (mant ++ E)) =
        if ((mant ++ E).takeWhile isDigitDot).isEmpty then none
        else some ('-' :: ((mant ++ E).takeWhile isDigitDot ++
          matchExpo ((mant ++ E).dropWhile isDigitDot))) := rfl
    rw [h1, hemp, htw, hdw, hE]
    rfl
  | false =>
    show matchNumber ([] ++ (mant ++ E)) = some ([] ++ (mant ++ E))
    rw [List.nil_append]
    rcases hm : mant with _ | ⟨m, ms⟩
    · exact absurd hm hne
    · have hmne : m ≠ '-' := ne_of_class (hall m (by simp [hm])) (by decide)
      rw [← hm]
      have hcond : ¬ ((mant ++ E).head? = some '-') := by
        rw [hm]
        simp [hmne]
      have h1 : matchNumber (mant ++ E) =
          if (mant ++ E).head? = some '-' then
            (if ((mant ++ E).tail.takeWhile isDigitDot).isEmpty then none
             else some ('-' :: ((mant ++ E).tail.takeWhile isDigitDot ++
               matchExpo ((mant ++ E).tail.dropWhile isDigitDot))))
          else
            (if ((mant ++ E).takeWhile isDigitDot).isEmpty then
              (match mant ++ E with
               | 'N' :: 'a' :: 'N' :: _ => some ['N', 'a', 'N']
               | _ => none)
             else some ((mant ++ E).takeWhile isDigitDot ++
               matchExpo ((mant ++ E).dropWhile isDigitDot))) := rfl
      have hememp : mant.isEmpty = false := by rw [hm]; rfl
      rw [h1, if_neg hcond, htw, hdw, hE, hememp]
      rfl

theorem matchNumber_render (t : NumTok) (h : t.valid = true) :
    matchNumber t.render = some t.render := by
  cases t with
  | nan => decide
  | num neg mant ex =>
    simp only [NumTok.valid, Bool.and_eq_true, Bool.not_eq_true', List.isEmpty_eq_false,
      List.all_eq_true] at h
    obtain ⟨⟨hne, hall⟩, hex⟩ := h
    rcases ex with _ | ⟨en, ds⟩
    · have hr : (NumTok.num neg mant none).render = ((if neg then ['-'] else []) ++ mant) ++ [] :=
        rfl
      rw [hr, List.append_assoc]
      exact matchNumber_core neg mant [] hne hall rfl (Or.inl rfl)
    · simp only [Bool.and_eq_true, Bool.not_eq_true', List.isEmpty_eq_false,
        List.all_eq_true] at hex
      have hr : (NumTok.num neg mant (some (en, ds))).render =
          ((if neg then ['-'] else []) ++ mant) ++ ('e' :: ((if en then ['-'] else []) ++ ds)) :=
        rfl
      rw [hr, List.append_assoc]
      exact matchNumber_core neg mant _ hne hall
        (matchExpo_render hex.1 hex.2) (Or.inr ⟨_, rfl⟩)

theorem findNoLabel_of_matchAt {cs v : List Char} (h : matchNoLabelAt cs = some v) :
    findNoLabel cs = some v := by
  cases cs with
  | nil => exact absurd h (by simp [matchNoLabelAt])
  | cons c rest =>
    unfold findNoLabel
    rw [h]

theorem findWithLabel_of_matchAt {cs : List Char} {r : List Char × List Char}
    (h : matchWithLabelAt cs = some r) : findWithLabel cs = some r := by
  cases cs with
  | nil => exact absurd h (by simp [matchWithLabelAt])
  | cons c rest =>
    unfold findWithLabel
    rw [h]

theorem matchNoLabelAt_mk (name : String) (t : NumTok) (hn : identOk name = true)
    (ht : t.valid = true) :
    matchNoLabelAt (name.data ++ ' ' :: t.render) = some t.render := by
  unfold identOk at hn
  rcases hd : name.data with _ | ⟨c, rest⟩
  · rw [hd] at hn; cases hn
  · rw [hd] at hn
    simp only [Bool.and_eq_true, List.all_eq_true] at hn
    rw [List.cons_append]
    have h1 : matchNoLabelAt (c :: (rest ++ ' ' :: t.render)) =
        if isIdentStart c then
          match (rest ++ ' ' :: t.render).dropWhile isIdentChar with
          | s :: rest' => if isWs s then matchNumber rest' else none
          | [] => none
        else none := rfl
    rw [h1, if_pos hn.1,
      List.dropWhile_append_of_pos (by intro a ha; exact hn.2 a ha),
      List.dropWhile_cons_of_neg (by decide : ¬ (isIdentChar ' ' = true))]
    show (if isWs ' ' then matchNumber t.render else none) = some t.render
    rw [if_pos (by decide : isWs ' ' = true), matchNumber_render t ht]

/-- For every well-formed unlabeled sample line `<name> <value>`, the Line
Classifier yields the value text exactly as written, with no labels. -/
theorem parse_unlabeled (name : String) (t : NumTok) (hn : identOk name = true)
    (ht : t.valid = true) :
    parse_from_string (mkUnlabeled name t) = .ok (String.mk t.render, none) := by
  unfold parse_from_string
  have hd : (mkUnlabeled name t).data = name.data ++ ' ' :: t.render := rfl
  rw [hd, findNoLabel_of_matchAt (matchNoLabelAt_mk name t hn ht)]

theorem tryClose_cons (c : Char) (rest : List Char) :
    tryClose (c :: rest) =
      match (if c ≠ '\n' then (tryClose rest).map (fun r => (c :: r.1, r.2)) else none) with
      | some r => some r
      | none =>
        if c = '}' then
          match rest with
          | s :: rest' =>
            if isWs s then (matchNumber rest').map (fun v => (([] : List Char), v)) else none
          | [] => none
        else none := rfl

theorem tryClose_no_brace {cs : List Char} (h : ∀ c ∈ cs, c ≠ '}') : tryClose cs = none := by
  induction cs with
  | nil => rfl
  | cons c rest ih =>
    have hc : c ≠ '}' := h c (by simp)
    have ih' : tryClose rest = none := ih (fun x hx => h x (by simp [hx]))
    rw [tryClose_cons, ih']
    simp [hc]

theorem tryClose_close {v : List Char} (hv : ∀ c ∈ v, c ≠ '}')
    (hm : matchNumber v = some v) :
    tryClose ('}' :: ' ' :: v) = some ([], v) := by
  have hrest : tryClose (' ' :: v) = none := by
    refine tryClose_no_brace ?_
    intro c hc
    rcases List.mem_cons.mp hc with rfl | hc'
    · decide
    · exact hv c hc'
  rw [tryClose_cons, hrest]
  simp [hm, (by decide : isWs ' ' = true)]

theorem tryClose_extend {A tail : List Char} {r : List Char × List Char}
    (hA : ∀ c ∈ A, c ≠ '\n') (h : tryClose tail = some r) :
    tryClose (A ++ tail) = some (A ++ r.1, r.2) := by
  induction A with
  | nil => simpa using h
  | cons c A' ih =>
    have hih : tryClose (A' ++ tail) = some (A' ++ r.1, r.2) :=
      ih (fun x hx => hA x (by simp [hx]))
    rw [List.cons_append, tryClose_cons, hih]
    simp [hA c (by simp)]

theorem digitDot_ne {c : Char} (h : isDigitDot c = true) : c ≠ '}' ∧ c ≠ '\n' :=
  ⟨ne_of_class h (by decide), ne_of_class h (by decide)⟩

theorem digitC_ne {c : Char} (h : isDigitC c = true) : c ≠ '}' ∧ c ≠ '\n' :=
  ⟨ne_of_class h (by decide), ne_of_class h (by decide)⟩

/-- Every character of a rendered numeric value: no `}` and no newline. -/
theorem render_chars (t : NumTok) (ht : t.valid = true) :
    ∀ c ∈ t.render, c ≠ '}' ∧ c ≠ '\n' := by
  cases t with
  | nan =>
    intro c hc
    simp only [NumTok.render, List.mem_cons, List.not_mem_nil, or_false] at hc
    rcases hc with rfl | rfl | rfl <;> exact ⟨by decide, by decide⟩
  | num neg mant ex =>
    simp only [NumTok.valid, Bool.and_eq_true, Bool.not_eq_true', List.isEmpty_eq_false,
      List.all_eq_true] at ht
    obtain ⟨⟨-, hall⟩, hex⟩ := ht
    intro c hc
    simp only [NumTok.render, List.mem_append, List.mem_cons] at hc
    rcases hc with (hsign | hmant) | hrest
    · cases neg with
      | true => simp at hsign; subst hsign; exact ⟨by decide, by decide⟩
      | false => simp at hsign
    · exact digitDot_ne (hall c hmant)
    · rcases ex with _ | ⟨en, ds⟩
      · simp at hrest
      · simp only [Bool.and_eq_true, Bool.not_eq_true', List.isEmpty_eq_false,
          List.all_eq_true] at hex
        simp only [List.mem_cons, List.mem_append] at hrest
        rcases hrest with rfl | hen | hds
        · exact ⟨by decide, by decide⟩
        · cases en with
          | true => simp at hen; subst hen; exact ⟨by decide, by decide⟩
          | false => simp at hen
        · exact digitC_ne (hex.2 c hds)

/-- Every character of a rendered label fragment is not a newline. -/
theorem fragRender_chars {p : String × String} (hp : pairOk p = true) :
    ∀ c ∈ fragRender p, c ≠ '\n' := by
  simp only [pairOk, Bool.and_eq_true, Bool.not_eq_true', List.isEmpty_eq_false,
    List.all_eq_true] at hp
  obtain ⟨⟨hk, -⟩, hv⟩ := hp
  intro c hc
  simp only [fragRender, List.mem_append, List.mem_cons, List.not_mem_nil, or_false] at hc
  rcases hc with hkc | rfl | rfl | hvc | rfl
  · exact ne_of_class (hk c hkc) (by decide)
  · decide
  · decide
  · have hvp := hv c hvc
    simp only [Bool.and_eq_true, decide_eq_true_eq] at hvp
    exact hvp.2
  · decide

theorem fragsRender_cons₂ (p q : String × String) (ps : List (String × String)) :
    fragsRender (p :: q :: ps) = fragRender p ++ ',' :: fragsRender (q :: ps) := rfl

/-- Every character of a rendered fragment list is not a newline. -/
theorem fragsRender_chars (ps : List (String × String)) (hok : ∀ p ∈ ps, pairOk p = true) :
    ∀ c ∈ fragsRender ps, c ≠ '\n' := by
  induction ps with
  | nil => simp [fragsRender]
  | cons p ps' ih =>
    intro c hc
    rcases ps' with _ | ⟨q, ps''⟩
    · exact fragRender_chars (hok p (by simp)) c hc
    · rw [fragsRender_cons₂, List.mem_append, List.mem_cons] at hc
      rcases hc with hfp | rfl | hrest
      · exact fragRender_chars (hok p (by simp)) c hfp
      · decide
      · exact ih (fun r hr => hok r (by simp [hr])) c hrest

theorem labelMatchAt_frag {k v : String} {rest : List Char} (h : pairOk (k, v) = true) :
    labelMatchAt (fragRender (k, v) ++ rest) = some ((k, v), rest) := by
  simp only [pairOk, Bool.and_eq_true, Bool.not_eq_true', List.isEmpty_eq_false,
    List.all_eq_true] at h
  obtain ⟨⟨hk, hvne⟩, hv⟩ := h
  have hvq : ∀ a ∈ v.data, (fun c => decide (c ≠ '"')) a = true := by
    intro a ha
    have hvp := hv a ha
    simp only [Bool.and_eq_true, decide_eq_true_eq] at hvp
    exact decide_eq_true hvp.1
  have hassoc : fragRender (k, v) ++ rest =
      k.data ++ '=' :: '"' :: (v.data ++ '"' :: rest) := by
    simp [fragRender]
  have h2 : (k.data ++ '=' :: '"' :: (v.data ++ '"' :: rest)).dropWhile isIdentChar =
      '=' :: '"' :: (v.data ++ '"' :: rest) := by
    rw [List.dropWhile_append_of_pos (fun a ha => hk a ha),
      List.dropWhile_cons_of_neg (by decide : ¬ (isIdentChar '=' = true))]
  have h3 : (k.data ++ '=' :: '"' :: (v.data ++ '"' :: rest)).takeWhile isIdentChar = k.data := by
    rw [List.takeWhile_append_of_pos (fun a ha => hk a ha),
      List.takeWhile_cons_of_neg (by decide : ¬ (isIdentChar '=' = true)), List.append_nil]
  have h4 : (v.data ++ '"' :: rest).dropWhile (fun c => c ≠ '"') = '"' :: rest := by
    rw [List.dropWhile_append_of_pos hvq,
      List.dropWhile_cons_of_neg (by simp)]
  have h5 : (v.data ++ '"' :: rest).takeWhile (fun c => c ≠ '"') = v.data := by
    rw [List.takeWhile_append_of_pos hvq,
      List.takeWhile_cons_of_neg (by simp), List.append_nil]
  have hvemp : v.data.isEmpty = false := by
    rcases hd : v.data with _ | ⟨a, as⟩
    · exact absurd hd hvne
    · rfl
  rw [hassoc]
  simp only [labelMatchAt, h2, h3, h4, h5, hvemp]
  rfl

theorem labelMatchAt_comma (xs : List Char) : labelMatchAt (',' :: xs) = none := rfl

theorem labelCapturesGo_nil (fuel : Nat) : labelCapturesGo fuel [] = [] := by
  cases fuel <;> rfl

theorem fragRender_length (p : String × String) :
    (fragRender p).length = p.1.data.length + p.2.data.length + 3 := by
  simp only [fragRender, List.length_append, List.length_cons, List.length_nil]
  omega

theorem pairOk_val_pos {p : String × String} (h : pairOk p = true) :
    1 ≤ p.2.data.length := by
  simp only [pairOk, Bool.and_eq_true, Bool.not_eq_true', List.isEmpty_eq_false] at h
  rcases hd : p.2.data with _ | ⟨a, as⟩
  · exact absurd hd h.1.2
  · simp

theorem labelCapturesGo_frags : ∀ (ps : List (String × String)) (fuel : Nat),
    (∀ p ∈ ps, pairOk p = true) → (fragsRender ps).length ≤ fuel →
    labelCapturesGo fuel (fragsRender ps) = ps := by
  intro ps
  induction ps with
  | nil =>
    intro fuel _ _
    exact labelCapturesGo_nil fuel
  | cons p ps' ih =>
    intro fuel hok hlen
    have hop : pairOk p = true := hok p (by simp)
    have hfl : 4 ≤ (fragRender p).length := by
      have h1 := fragRender_length p
      have h2 := pairOk_val_pos hop
      omega
    have hfrag : labelMatchAt (fragRender p ++ ([] : List Char)) = some ((p.1, p.2), []) :=
      labelMatchAt_frag (k := p.1) (v := p.2) (by simpa using hop)
    rcases ps' with _ | ⟨q, ps''⟩
    · have hlen1 : (fragsRender [p]).length = (fragRender p).length := rfl
      rcases fuel with _ | f
      · omega
      · show labelCapturesGo (f + 1) (fragsRender [p]) = [p]
        have heq : fragsRender [p] = fragRender p ++ [] := by simp [fragsRender]
        rw [heq]
        simp only [labelCapturesGo, hfrag]
        rw [labelCapturesGo_nil f]
    · have heq : fragsRender (p :: q :: ps'') =
          fragRender p ++ ',' :: fragsRender (q :: ps'') := fragsRender_cons₂ p q ps''
      have hlen2 := congrArg List.length heq
      simp only [List.length_append, List.length_cons] at hlen2
      rcases fuel with _ | f
      · omega
      · rcases f with _ | f'
        · omega
        · rw [heq]
          have hfrag2 : labelMatchAt (fragRender p ++ ',' :: fragsRender (q :: ps'')) =
              some ((p.1, p.2), ',' :: fragsRender (q :: ps'')) :=
            labelMatchAt_frag (k := p.1) (v := p.2) (by simpa using hop)
          show labelCapturesGo (f' + 1 + 1) (fragRender p ++ ',' :: fragsRender (q :: ps'')) =
            p :: q :: ps''
          simp only [labelCapturesGo, hfrag2, labelMatchAt_comma]
          rw [ih (f') (fun r hr => hok r (by simp [hr])) (by omega)]

theorem labelCaptures_frags (ps : List (String × String))
    (hok : ∀ p ∈ ps, pairOk p = true) :
    labelCaptures (fragsRender ps) = ps :=
  labelCapturesGo_frags ps _ hok (Nat.le_refl _)

theorem foldl_hmInsert_fresh : ∀ (ps acc : List (String × String)),
    (ps.map Prod.fst).Nodup → (∀ p ∈ ps, ∀ q ∈ acc, q.1 ≠ p.1) →
    ps.foldl (fun m p => hmInsert m p.1 p.2) acc = acc ++ ps := by
  intro ps
  induction ps with
  | nil => intro acc _ _; simp
  | cons p ps' ih =>
    intro acc hnd hfr
    simp only [List.map_cons, List.nodup_cons, List.mem_map] at hnd
    have hany : ¬ (acc.any (fun q => decide (q.1 = p.1)) = true) := by
      intro hc
      simp only [List.any_eq_true, decide_eq_true_eq] at hc
      obtain ⟨q, hq, heq⟩ := hc
      exact hfr p (by simp) q hq heq
    have hins : hmInsert acc p.1 p.2 = acc ++ [p] := by
      unfold hmInsert
      rw [if_neg hany]
    have hfr2 : ∀ r ∈ ps', ∀ q ∈ acc ++ [p], q.1 ≠ r.1 := by
      intro r hr q hq
      rcases List.mem_append.mp hq with hqa | hqp
      · exact hfr r (by simp [hr]) q hqa
      · have hqp' : q = p := by simpa using hqp
        subst hqp'
        intro hqr
        exact hnd.1 ⟨r, hr, hqr.symm⟩
    rw [List.foldl_cons, hins, ih (acc ++ [p]) hnd.2 hfr2]
    simp

theorem foldl_hmInsert_nil (ps : List (String × String))
    (hnd : (ps.map Prod.fst).Nodup) :
    ps.foldl (fun m p => hmInsert m p.1 p.2) [] = ps := by
  simpa using foldl_hmInsert_fresh ps [] hnd (by simp)

theorem matchWithLabelAt_mk (name : String) (pairs : List (String × String)) (t : NumTok)
    (hn : identOk name = true) (hp : ∀ p ∈ pairs, pairOk p = true) (ht : t.valid = true) :
    matchWithLabelAt (mkLabeled name pairs t).data = some (fragsRender pairs, t.render) := by
  unfold identOk at hn
  rcases hd : name.data with _ | ⟨c, rest⟩
  · rw [hd] at hn; cases hn
  · rw [hd] at hn
    simp only [Bool.and_eq_true, List.all_eq_true] at hn
    have hdata : (mkLabeled name pairs t).data =
        c :: (rest ++ '{' :: (fragsRender pairs ++ '}' :: ' ' :: t.render)) := by
      show name.data ++ '{' :: (fragsRender pairs ++ '}' :: ' ' :: t.render) = _
      rw [hd, List.cons_append]
    rw [hdata]
    have h1 : matchWithLabelAt (c :: (rest ++ '{' :: (fragsRender pairs ++ '}' :: ' ' :: t.render))) =
        if isIdentStart c then
          match (rest ++ '{' :: (fragsRender pairs ++ '}' :: ' ' :: t.render)).dropWhile isIdentChar with
          | '{' :: rest' => tryClose rest'
          | _ => none
        else none := rfl
    rw [h1, if_pos hn.1,
      List.dropWhile_append_of_pos (fun a ha => hn.2 a ha),
      List.dropWhile_cons_of_neg (by decide : ¬ (isIdentChar '{' = true))]
    show tryClose (fragsRender pairs ++ '}' :: ' ' :: t.render) = some (fragsRender pairs, t.render)
    have hclose : tryClose ('}' :: ' ' :: t.render) = some ([], t.render) :=
      tryClose_close (fun c hc => (render_chars t ht c hc).1) (matchNumber_render t ht)
    have := tryClose_extend (fragsRender_chars pairs hp) hclose
    rw [this]
    simp

/-- For every well-formed labeled sample line on which the unlabeled regex
finds no match, the Line Classifier yields the value text exactly as
written and the label set of the fragments. -/
theorem parse_labeled (name : String) (pairs : List (String × String)) (t : NumTok)
    (hn : identOk name = true) (hp : ∀ p ∈ pairs, pairOk p = true) (ht : t.valid = true)
    (hnodup : (pairs.map Prod.fst).Nodup)
    (hno : findNoLabel (mkLabeled name pairs t).data = none) :
    parse_from_string (mkLabeled name pairs t) = .ok (String.mk t.render, some pairs) := by
  unfold parse_from_string
  rw [hno, findWithLabel_of_matchAt (matchWithLabelAt_mk name pairs t hn hp ht)]
  simp only [labelCaptures_frags pairs hp, foldl_hmInsert_nil pairs hnodup]

theorem summaryRun_append (name : String) (xs ys : List String) (st : SState) :
    summaryRun name st (xs ++ ys) =
      (summaryRun name st xs).bind fun m => summaryRun name m ys := by
  induction xs generalizing st with
  | nil => rfl
  | cons l ls ih =>
    have e1 : summaryRun name st ((l :: ls) ++ ys) =
        (summaryStep name st l).bind fun st' => summaryRun name st' (ls ++ ys) := rfl
    have e2 : summaryRun name st (l :: ls) =
        (summaryStep name st l).bind fun st' => summaryRun name st' ls := rfl
    rw [e1, e2]
    cases h : summaryStep name st l with
    | error e => rfl
    | ok st' => exact ih st'

theorem histRun_append (name : String) (xs ys : List String) (st : HState) :
    histRun name st (xs ++ ys) =
      (histRun name st xs).bind fun m => histRun name m ys := by
  induction xs generalizing st with
  | nil => rfl
  | cons l ls ih =>
    have e1 : histRun name st ((l :: ls) ++ ys) =
        (histStep name st l).bind fun st' => histRun name st' (ls ++ ys) := rfl
    have e2 : histRun name st (l :: ls) =
        (histStep name st l).bind fun st' => histRun name st' ls := rfl
    rw [e1, e2]
    cases h : histStep name st l with
    | error e => rfl
    | ok st' => exact ih st'

/-- Lines that match neither prefix touch only the labels/quantiles part of
the summary state: the run from two states agreeing there agrees modulo the
untouched `sum`/`count`. -/
theorem summaryRun_frame (name : String) : ∀ (lines : List String) (a b : SState),
    (∀ l ∈ lines, strStarts l (name ++ "_sum") = false ∧
      strStarts l (name ++ "_count") = false) →
    a.labels = b.labels → a.quantiles = b.quantiles →
    summaryRun name a lines =
      (summaryRun name b lines).map fun r =>
        { sum := a.sum, count := a.count, labels := r.labels, quantiles := r.quantiles } := by
  intro lines
  induction lines with
  | nil =>
    intro a b h hl hq
    show Except.ok a = Except.ok
      { sum := a.sum, count := a.count, labels := b.labels, quantiles := b.quantiles }
    rw [← hl, ← hq]
  | cons l ls ih =>
    intro a b h hl hq
    have hsum : strStarts l (name ++ "_sum") = false := (h l (by simp)).1
    have hcnt : strStarts l (name ++ "_count") = false := (h l (by simp)).2
    have e1 : summaryRun name a (l :: ls) =
        (summaryStep name a l).bind fun st' => summaryRun name st' ls := rfl
    have e2 : summaryRun name b (l :: ls) =
        (summaryStep name b l).bind fun st' => summaryRun name st' ls := rfl
    rw [e1, e2]
    unfold summaryStep
    rw [hsum, hcnt]
    simp only [Bool.false_eq_true, if_false]
    cases hf : findWithLabel l.data with
    | none => rfl
    | some r =>
      rw [hl, hq]
      exact ih _ _ (fun x hx => h x (by simp [hx])) rfl rfl

/-- Histogram analogue of `summaryRun_frame`. -/
theorem histRun_frame (name : String) : ∀ (lines : List String) (a b : HState),
    (∀ l ∈ lines, strStarts l (name ++ "_sum") = false ∧
      strStarts l (name ++ "_count") = false) →
    a.labels = b.labels → a.buckets = b.buckets →
    histRun name a lines =
      (histRun name b lines).map fun r =>
        { sum := a.sum, count := a.count, labels := r.labels, buckets := r.buckets } := by
  intro lines
  induction lines with
  | nil =>
    intro a b h hl hq
    show Except.ok a = Except.ok
      { sum := a.sum, count := a.count, labels := b.labels, buckets := b.buckets }
    rw [← hl, ← hq]
  | cons l ls ih =>
    intro a b h hl hq
    have hsum : strStarts l (name ++ "_sum") = false := (h l (by simp)).1
    have hcnt : strStarts l (name ++ "_count") = false := (h l (by simp)).2
    have e1 : histRun name a (l :: ls) =
        (histStep name a l).bind fun st' => histRun name st' ls := rfl
    have e2 : histRun name b (l :: ls) =
        (histStep name b l).bind fun st' => histRun name st' ls := rfl
    rw [e1, e2]
    unfold histStep
    rw [hsum, hcnt]
    simp only [Bool.false_eq_true, if_false]
    cases hf : findWithLabel l.data with
    | none => rfl
    | some r =>
      rw [hl, hq]
      exact ih _ _ (fun x hx => h x (by simp [hx])) rfl rfl

theorem exbind_ok_eq (a : α) (f : α → Except ParseError β) : (Except.ok a).bind f = f a := rfl

theorem exmap_ok_eq (a : α) (f : α → β) :
    (Except.ok a : Except ParseError α).map f = Except.ok (f a) := rfl

theorem exBind_ok {x : Except ParseError α} {f : α → Except ParseError β} {b : β}
    (h : x.bind f = .ok b) : ∃ a, x = .ok a ∧ f a = .ok b := by
  cases x with
  | error e => exact Except.noConfusion h
  | ok a => exact ⟨a, rfl, h⟩

theorem exMap_ok {x : Except ParseError α} {f : α → β} {b : β}
    (h : x.map f = .ok b) : ∃ a, x = .ok a ∧ f a = b := by
  cases x with
  | error e => exact Except.noConfusion h
  | ok a => exact ⟨a, rfl, Except.ok.inj h⟩

theorem summaryRun_single (name : String) (st : SState) (l : String) :
    summaryRun name st [l] = summaryStep name st l := by
  show (summaryStep name st l).bind (fun st' => summaryRun name st' []) = summaryStep name st l
  cases summaryStep name st l <;> rfl

theorem histRun_single (name : String) (st : HState) (l : String) :
    histRun name st [l] = histStep name st l := by
  show (histStep name st l).bind (fun st' => histRun name st' []) = histStep name st l
  cases histStep name st l <;> rfl

theorem summaryStep_sum {name : String} {st : SState} {sline vs : String}
    {ls : Option (List (String × String))}
    (hs : strStarts sline (name ++ "_sum") = true)
    (hps : parse_from_string sline = .ok (vs, ls)) :
    summaryStep name st sline = .ok { st with sum := vs } := by
  unfold summaryStep
  rw [hs, if_pos rfl, hps]
  rfl

theorem summaryStep_count {name : String} {st : SState} {cline vc : String}
    {lc : Option (List (String × String))}
    (hcs : strStarts cline (name ++ "_sum") = false)
    (hc : strStarts cline (name ++ "_count") = true)
    (hpc : parse_from_string cline = .ok (vc, lc)) :
    summaryStep name st cline = .ok { st with count := vc } := by
  unfold summaryStep
  rw [hcs, if_neg (by simp), hc, if_pos rfl, hpc]
  rfl

theorem histStep_sum {name : String} {st : HState} {sline vs : String}
    {ls : Option (List (String × String))}
    (hs : strStarts sline (name ++ "_sum") = true)
    (hps : parse_from_string sline = .ok (vs, ls)) :
    histStep name st sline = .ok { st with sum := vs } := by
  unfold histStep
  rw [hs, if_pos rfl, hps]
  rfl

theorem histStep_count {name : String} {st : HState} {cline vc : String}
    {lc : Option (List (String × String))}
    (hcs : strStarts cline (name ++ "_sum") = false)
    (hc : strStarts cline (name ++ "_count") = true)
    (hpc : parse_from_string cline = .ok (vc, lc)) :
    histStep name st cline = .ok { st with count := vc } := by
  unfold histStep
  rw [hcs, if_neg (by simp), hc, if_pos rfl, hpc]
  rfl

/-- In a summary run, the one `<name>_sum`-prefixed line supplies `sum`, the
one `<name>_count`-prefixed line supplies `count`, and removing both lines
leaves the record's labels and quantiles unchanged: their own label
fragments are never merged. -/
theorem summary_sum_count (name : String) (pre mid post : List String)
    (sline cline vs vc : String) (ls lc : Option (List (String × String))) (r0 : Summary)
    (hnp : ∀ l ∈ pre ++ mid ++ post, strStarts l (name ++ "_sum") = false ∧
      strStarts l (name ++ "_count") = false)
    (hs : strStarts sline (name ++ "_sum") = true)
    (hc : strStarts cline (name ++ "_count") = true)
    (hcs : strStarts cline (name ++ "_sum") = false)
    (hps : parse_from_string sline = .ok (vs, ls))
    (hpc : parse_from_string cline = .ok (vc, lc))
    (h0 : Summary.from_raw name (pre ++ mid ++ post) = .ok r0) :
    Summary.from_raw name (pre ++ [sline] ++ mid ++ [cline] ++ post) =
      .ok { labels := r0.labels, quantiles := r0.quantiles, count := vc, sum := vs } := by
  have hpre : ∀ l ∈ pre, strStarts l (name ++ "_sum") = false ∧
      strStarts l (name ++ "_count") = false := fun l hl => hnp l (by simp [hl])
  have hmid : ∀ l ∈ mid, strStarts l (name ++ "_sum") = false ∧
      strStarts l (name ++ "_count") = false := fun l hl => hnp l (by simp [hl])
  have hpost : ∀ l ∈ post, strStarts l (name ++ "_sum") = false ∧
      strStarts l (name ++ "_count") = false := fun l hl => hnp l (by simp [hl])
  unfold Summary.from_raw at h0 ⊢
  obtain ⟨st0, hrun0, hwrap⟩ := exMap_ok h0
  rw [List.append_assoc, summaryRun_append name pre (mid ++ post)] at hrun0
  obtain ⟨stA, hA, hAr⟩ := exBind_ok hrun0
  rw [summaryRun_append name mid post] at hAr
  obtain ⟨stB, hB, hBr⟩ := exBind_ok hAr
  have hmidrun : summaryRun name { stA with sum := vs } mid =
      .ok { sum := vs, count := stA.count, labels := stB.labels,
            quantiles := stB.quantiles } := by
    rw [summaryRun_frame name mid { stA with sum := vs } stA hmid rfl rfl, hB, exmap_ok_eq]
  have hpostrun : summaryRun name
      { sum := vs, count := vc, labels := stB.labels, quantiles := stB.quantiles } post =
      .ok { sum := vs, count := vc, labels := st0.labels, quantiles := st0.quantiles } := by
    rw [summaryRun_frame name post
      { sum := vs, count := vc, labels := stB.labels, quantiles := stB.quantiles }
      stB hpost rfl rfl, hBr, exmap_ok_eq]
  have hrunL : summaryRun name ⟨"", "", [], []⟩
      (pre ++ [sline] ++ mid ++ [cline] ++ post) =
      .ok { sum := vs, count := vc, labels := st0.labels, quantiles := st0.quantiles } := by
    rw [summaryRun_append name (pre ++ [sline] ++ mid ++ [cline]) post,
      summaryRun_append name (pre ++ [sline] ++ mid) [cline],
      summaryRun_append name (pre ++ [sline]) mid,
      summaryRun_append name pre [sline],
      hA, exbind_ok_eq, summaryRun_single, summaryStep_sum hs hps, exbind_ok_eq,
      hmidrun, exbind_ok_eq, summaryRun_single, summaryStep_count hcs hc hpc, exbind_ok_eq]
    exact hpostrun
  rw [hrunL, exmap_ok_eq, ← hwrap]

/-- Histogram analogue of `summary_sum_count`. -/
theorem hist_sum_count (name : String) (pre mid post : List String)
    (sline cline vs vc : String) (ls lc : Option (List (String × String))) (r0 : Histogram)
    (hnp : ∀ l ∈ pre ++ mid ++ post, strStarts l (name ++ "_sum") = false ∧
      strStarts l (name ++ "_count") = false)
    (hs : strStarts sline (name ++ "_sum") = true)
    (hc : strStarts cline (name ++ "_count") = true)
    (hcs : strStarts cline (name ++ "_sum") = false)
    (hps : parse_from_string sline = .ok (vs, ls))
    (hpc : parse_from_string cline = .ok (vc, lc))
    (h0 : Histogram.from_raw name (pre ++ mid ++ post) = .ok r0) :
    Histogram.from_raw name (pre ++ [sline] ++ mid ++ [cline] ++ post) =
      .ok { labels := r0.labels, buckets := r0.buckets, count := vc, sum := vs } := by
  have hpre : ∀ l ∈ pre, strStarts l (name ++ "_sum") = false ∧
      strStarts l (name ++ "_count") = false := fun l hl => hnp l (by simp [hl])
  have hmid : ∀ l ∈ mid, strStarts l (name ++ "_sum") = false ∧
      strStarts l (name ++ "_count") = false := fun l hl => hnp l (by simp [hl])
  have hpost : ∀ l ∈ post, strStarts l (name ++ "_sum") = false ∧
      strStarts l (name ++ "_count") = false := fun l hl => hnp l (by simp [hl])
  unfold Histogram.from_raw at h0 ⊢
  obtain ⟨st0, hrun0, hwrap⟩ := exMap_ok h0
  rw [List.append_assoc, histRun_append name pre (mid ++ post)] at hrun0
  obtain ⟨stA, hA, hAr⟩ := exBind_ok hrun0
  rw [histRun_append name mid post] at hAr
  obtain ⟨stB, hB, hBr⟩ := exBind_ok hAr
  have hmidrun : histRun name { stA with sum := vs } mid =
      .ok { sum := vs, count := stA.count, labels := stB.labels,
            buckets := stB.buckets } := by
    rw [histRun_frame name mid { stA with sum := vs } stA hmid rfl rfl, hB, exmap_ok_eq]
  have hpostrun : histRun name
      { sum := vs, count := vc, labels := stB.labels, buckets := stB.buckets } post =
      .ok { sum := vs, count := vc, labels := st0.labels, buckets := st0.buckets } := by
    rw [histRun_frame name post
      { sum := vs, count := vc, labels := stB.labels, buckets := stB.buckets }
      stB hpost rfl rfl, hBr, exmap_ok_eq]
  have hrunL : histRun name ⟨"", "", [], []⟩
      (pre ++ [sline] ++ mid ++ [cline] ++ post) =
      .ok { sum := vs, count := vc, labels := st0.labels, buckets := st0.buckets } := by
    rw [histRun_append name (pre ++ [sline] ++ mid ++ [cline]) post,
      histRun_append name (pre ++ [sline] ++ mid) [cline],
      histRun_append name (pre ++ [sline]) mid,
      histRun_append name pre [sline],
      hA, exbind_ok_eq, histRun_single, histStep_sum hs hps, exbind_ok_eq,
      hmidrun, exbind_ok_eq, histRun_single, histStep_count hcs hc hpc, exbind_ok_eq]
    exact hpostrun
  rw [hrunL, exmap_ok_eq, ← hwrap]

theorem eq_of_mem_nodupkeys : ∀ {L : List (String × String)}, (L.map Prod.fst).Nodup →
    ∀ {p q : String × String}, p ∈ L → q ∈ L → p.1 = q.1 → p = q := by
  intro L
  induction L with
  | nil => intro _ p q hp _ _; cases hp
  | cons x xs ih =>
    intro hnd p q hp hq hk
    simp only [List.map_cons, List.nodup_cons, List.mem_map] at hnd
    rcases List.mem_cons.mp hp with rfl | hp' <;> rcases List.mem_cons.mp hq with rfl | hq'
    · rfl
    · exact absurd ⟨q, hq', hk.symm⟩ hnd.1
    · exact absurd ⟨p, hp', hk⟩ hnd.1
    · exact ih hnd.2 hp' hq' hk

theorem hmInsert_fresh {B : List (String × String)} {k v : String}
    (h : ∀ q ∈ B, q.1 ≠ k) : hmInsert B k v = B ++ [(k, v)] := by
  unfold hmInsert
  rw [if_neg ?hany]
  case hany =>
    intro hc
    simp only [List.any_eq_true, decide_eq_true_eq] at hc
    obtain ⟨q, hq, heq⟩ := hc
    exact h q hq heq

theorem hmInsert_mem {L : List (String × String)} {k v : String}
    (hnd : (L.map Prod.fst).Nodup) (hmem : (k, v) ∈ L) : hmInsert L k v = L := by
  unfold hmInsert
  have hany : L.any (fun q => decide (q.1 = k)) = true :=
    List.any_eq_true.mpr ⟨(k, v), hmem, by simp⟩
  rw [if_pos hany]
  have hmap : ∀ p ∈ L, (if p.1 = k then (k, v) else p) = p := by
    intro p hp
    by_cases hpk : p.1 = k
    · rw [if_pos hpk]
      exact (eq_of_mem_nodupkeys hnd hmem hp (by rw [hpk])).symm ▸ rfl
    · rw [if_neg hpk]
  calc L.map (fun p => if p.1 = k then (k, v) else p) = L.map id := List.map_congr_left hmap
    _ = L := List.map_id L

theorem foldl_hmInsert_self : ∀ (ps L : List (String × String)),
    (L.map Prod.fst).Nodup → (∀ p ∈ ps, p ∈ L) →
    ps.foldl (fun m p => hmInsert m p.1 p.2) L = L := by
  intro ps
  induction ps with
  | nil => intro L _ _; rfl
  | cons p ps' ih =>
    intro L hnd hmem
    rw [List.foldl_cons, hmInsert_mem hnd (hmem p (by simp))]
    exact ih L hnd (fun q hq => hmem q (by simp [hq]))

theorem histLabeledFold_nonle (v : String) : ∀ (other : List (String × String))
    (L B : List (String × String)), (∀ p ∈ other, p.1 ≠ "le") →
    other.foldl (histLabeledFold v) (L, B) =
      (other.foldl (fun m p => hmInsert m p.1 p.2) L, B) := by
  intro other
  induction other with
  | nil => intro L B _; rfl
  | cons p ps ih =>
    intro L B h
    rw [List.foldl_cons, List.foldl_cons]
    have hp : p.1 ≠ "le" := h p (by simp)
    show ps.foldl (histLabeledFold v) (histLabeledFold v (L, B) p) = _
    unfold histLabeledFold
    rw [if_neg hp]
    exact ih _ _ (fun q hq => h q (by simp [hq]))

theorem histLabeledFold_line (v : String) (other : List (String × String)) (b : String)
    (L B : List (String × String)) (hle : ∀ p ∈ other, p.1 ≠ "le") :
    (other ++ [("le", b)]).foldl (histLabeledFold v) (L, B) =
      (other.foldl (fun m p => hmInsert m p.1 p.2) L, hmInsert B b v) := by
  rw [List.foldl_append, histLabeledFold_nonle v other L B hle]
  show histLabeledFold v (other.foldl (fun m p => hmInsert m p.1 p.2) L, B) ("le", b) = _
  unfold histLabeledFold
  rw [if_pos rfl]

theorem histStep_labeled {name : String} {st : HState} {bname : String}
    {ps : List (String × String)} {t : NumTok}
    (hns : strStarts (mkLabeled bname ps t) (name ++ "_sum") = false)
    (hnc : strStarts (mkLabeled bname ps t) (name ++ "_count") = false)
    (hb : identOk bname = true) (hp : ∀ p ∈ ps, pairOk p = true) (ht : t.valid = true) :
    histStep name st (mkLabeled bname ps t) =
      .ok { st with
        labels := (ps.foldl (histLabeledFold (String.mk t.render)) (st.labels, st.buckets)).1,
        buckets := (ps.foldl (histLabeledFold (String.mk t.render)) (st.labels, st.buckets)).2 } := by
  unfold histStep
  rw [hns, if_neg (by simp), hnc, if_neg (by simp),
    findWithLabel_of_matchAt (matchWithLabelAt_mk bname ps t hb hp ht)]
  show Except.ok { st with
      labels := ((labelCaptures (fragsRender ps)).foldl
        (histLabeledFold (String.mk t.render)) (st.labels, st.buckets)).1,
      buckets := ((labelCaptures (fragsRender ps)).foldl
        (histLabeledFold (String.mk t.render)) (st.labels, st.buckets)).2 } = _
  rw [labelCaptures_frags ps hp]

theorem lookup_none_of_keys {k : String} : ∀ (L : List (String × String)),
    (∀ p ∈ L, p.1 ≠ k) → List.lookup k L = none := by
  intro L
  induction L with
  | nil => intro _; rfl
  | cons p ps ih =>
    intro h
    obtain ⟨pk, pv⟩ := p
    have hbeq : (k == pk) = false := by
      simp only [beq_eq_false_iff_ne, ne_eq]
      exact fun he => h (pk, pv) (by simp) he.symm
    show List.lookup k ((pk, pv) :: ps) = none
    rw [List.lookup_cons, hbeq]
    exact ih (fun q hq => h q (by simp [hq]))

/-- Processing a run of bucket lines that all carry the same non-`le`
fragments `other` plus one `le` fragment each, starting from a state whose
labels are already `other`: the labels stay `other` and the buckets extend
by (bound ↦ line value), in order. -/
theorem histRun_buckets (name bname : String) (other : List (String × String))
    (hle : ∀ p ∈ other, p.1 ≠ "le") (hnd : (other.map Prod.fst).Nodup)
    (hb : identOk bname = true) (hok : ∀ p ∈ other, pairOk p = true) :
    ∀ (bvs : List (String × NumTok)) (B : List (String × String)) (sum count : String),
    (∀ q ∈ bvs, pairOk ("le", q.1) = true ∧ q.2.valid = true ∧
      strStarts (mkLabeled bname (other ++ [("le", q.1)]) q.2) (name ++ "_sum") = false ∧
      strStarts (mkLabeled bname (other ++ [("le", q.1)]) q.2) (name ++ "_count") = false) →
    (∀ q ∈ bvs, ∀ pb ∈ B, pb.1 ≠ q.1) → (bvs.map Prod.fst).Nodup →
    histRun name ⟨sum, count, other, B⟩
      (bvs.map fun q => mkLabeled bname (other ++ [("le", q.1)]) q.2) =
      .ok ⟨sum, count, other, B ++ bvs.map fun q => (q.1, String.mk q.2.render)⟩ := by
  intro bvs
  induction bvs with
  | nil =>
    intro B sum count _ _ _
    show Except.ok _ = _
    rw [List.map_nil, List.append_nil]
  | cons q qs ih =>
    intro B sum count hq hfresh hbnd
    obtain ⟨hqok, hqval, hqs, hqc⟩ := hq q (by simp)
    have hpall : ∀ p ∈ other ++ [("le", q.1)], pairOk p = true := by
      intro p hp
      rcases List.mem_append.mp hp with hp' | hp'
      · exact hok p hp'
      · have : p = ("le", q.1) := by simpa using hp'
        rw [this]
        exact hqok
    rw [List.map_cons]
    have e1 : histRun name ⟨sum, count, other, B⟩
        (mkLabeled bname (other ++ [("le", q.1)]) q.2 ::
          qs.map fun r => mkLabeled bname (other ++ [("le", r.1)]) r.2) =
        (histStep name ⟨sum, count, other, B⟩
          (mkLabeled bname (other ++ [("le", q.1)]) q.2)).bind
          fun st' => histRun name st'
            (qs.map fun r => mkLabeled bname (other ++ [("le", r.1)]) r.2) := rfl
    rw [e1, histStep_labeled hqs hqc hb hpall hqval,
      histLabeledFold_line (String.mk q.2.render) other q.1 other B hle,
      foldl_hmInsert_self other other hnd (fun p hp => hp),
      hmInsert_fresh (fun pb hpb => hfresh q (by simp) pb hpb), exbind_ok_eq]
    have ihr := ih (B ++ [(q.1, String.mk q.2.render)]) sum count
      (fun r hr => hq r (by simp [hr])) ?hfresh2 ?hnd2
    case hfresh2 =>
      intro r hr pb hpb
      rcases List.mem_append.mp hpb with hpb' | hpb'
      · exact hfresh r (by simp [hr]) pb hpb'
      · have hpbe : pb = (q.1, String.mk q.2.render) := by simpa using hpb'
        rw [hpbe]
        simp only [List.map_cons, List.nodup_cons, List.mem_map] at hbnd
        intro hcon
        exact hbnd.1 ⟨r, hr, hcon.symm⟩
    case hnd2 =>
      simp only [List.map_cons, List.nodup_cons] at hbnd
      exact hbnd.2
    rw [ihr]
    simp

theorem exMapM_length {f : α → Except ParseError β} : ∀ {xs : List α} {ys : List β},
    exMapM f xs = .ok ys → ys.length = xs.length := by
  intro xs
  induction xs with
  | nil =>
    intro ys h
    have : ([] : List β) = ys := Except.ok.inj h
    rw [← this]
    rfl
  | cons x xs' ih =>
    intro ys h
    unfold exMapM at h
    obtain ⟨b, -, hrest⟩ := exBind_ok h
    obtain ⟨bs, hbs, hcons⟩ := exMap_ok hrest
    rw [← hcons]
    simp [ih hbs]

theorem summaryLines_cons (name : String) (data : List MetricLike) (cur : List String)
    (line : String) (rest : List String) :
    summaryLines name data cur (line :: rest) =
      if strStarts line (name ++ "_count") then
        (Summary.from_raw name (cur ++ [line])).bind fun s =>
          summaryLines name (data ++ [MetricLike.summary s]) [] rest
      else summaryLines name data (cur ++ [line]) rest := rfl

theorem histogramLines_cons (name : String) (data : List MetricLike) (cur : List String)
    (line : String) (rest : List String) :
    histogramLines name data cur (line :: rest) =
      if strStarts line (name ++ "_count") then
        (Histogram.from_raw name (cur ++ [line])).bind fun h =>
          histogramLines name (data ++ [MetricLike.histogram h]) [] rest
      else histogramLines name data (cur ++ [line]) rest := rfl

theorem summaryLines_acc (name : String) : ∀ (ls : List String) (data : List MetricLike)
    (cur more : List String), (∀ l ∈ ls, strStarts l (name ++ "_count") = false) →
    summaryLines name data cur (ls ++ more) = summaryLines name data (cur ++ ls) more := by
  intro ls
  induction ls with
  | nil => intro data cur more _; rw [List.nil_append, List.append_nil]
  | cons l ls' ih =>
    intro data cur more h
    rw [List.cons_append, summaryLines_cons, (h l (by simp)), if_neg (by simp),
      ih data (cur ++ [l]) more (fun x hx => h x (by simp [hx])), List.append_assoc,
      List.singleton_append]

theorem histogramLines_acc (name : String) : ∀ (ls : List String) (data : List MetricLike)
    (cur more : List String), (∀ l ∈ ls, strStarts l (name ++ "_count") = false) →
    histogramLines name data cur (ls ++ more) = histogramLines name data (cur ++ ls) more := by
  intro ls
  induction ls with
  | nil => intro data cur more _; rw [List.nil_append, List.append_nil]
  | cons l ls' ih =>
    intro data cur more h
    rw [List.cons_append, histogramLines_cons, (h l (by simp)), if_neg (by simp),
      ih data (cur ++ [l]) more (fun x hx => h x (by simp [hx])), List.append_assoc,
      List.singleton_append]

/-- The summary branch of the Metric Family Builder: a sequence of runs,
each ending at its `<name>_count` line, yields one record per run, in
order; a trailing group of lines with no `_count` terminator yields no
record. -/
theorem summaryLines_runs (name : String) : ∀ (runs : List (List String × String))
    (data : List MetricLike) (leftover : List String) (recs : List Summary),
    (∀ r ∈ runs, (∀ l ∈ r.1, strStarts l (name ++ "_count") = false) ∧
      strStarts r.2 (name ++ "_count") = true) →
    (∀ l ∈ leftover, strStarts l (name ++ "_count") = false) →
    exMapM (fun r => Summary.from_raw name (r.1 ++ [r.2])) runs = .ok recs →
    summaryLines name data [] ((runs.map fun r => r.1 ++ [r.2]).flatten ++ leftover) =
      .ok (data ++ recs.map MetricLike.summary) := by
  intro runs
  induction runs with
  | nil =>
    intro data leftover recs _ hleft hmap
    have hrecs : ([] : List Summary) = recs := Except.ok.inj hmap
    rw [← hrecs, List.map_nil, List.map_nil, List.flatten_nil, List.nil_append, List.append_nil,
      ← List.append_nil leftover,
      summaryLines_acc name leftover data [] [] hleft]
    rfl
  | cons r rs ih =>
    intro data leftover recs hruns hleft hmap
    unfold exMapM at hmap
    obtain ⟨s0, hs0, hrest⟩ := exBind_ok hmap
    obtain ⟨recs', hrecs', hcons⟩ := exMap_ok hrest
    rw [List.map_cons, List.flatten_cons, List.append_assoc, List.append_assoc,
      summaryLines_acc name r.1 data [] _ (hruns r (by simp)).1, List.nil_append,
      List.singleton_append, summaryLines_cons, (hruns r (by simp)).2, if_pos rfl,
      hs0, exbind_ok_eq,
      ih (data ++ [MetricLike.summary s0]) leftover recs'
        (fun x hx => hruns x (by simp [hx])) hleft hrecs', ← hcons]
    simp

/-- Histogram analogue of `summaryLines_runs`. -/
theorem histogramLines_runs (name : String) : ∀ (runs : List (List String × String))
    (data : List MetricLike) (leftover : List String) (recs : List Histogram),
    (∀ r ∈ runs, (∀ l ∈ r.1, strStarts l (name ++ "_count") = false) ∧
      strStarts r.2 (name ++ "_count") = true) →
    (∀ l ∈ leftover, strStarts l (name ++ "_count") = false) →
    exMapM (fun r => Histogram.from_raw name (r.1 ++ [r.2])) runs = .ok recs →
    histogramLines name data [] ((runs.map fun r => r.1 ++ [r.2]).flatten ++ leftover) =
      .ok (data ++ recs.map MetricLike.histogram) := by
  intro runs
  induction runs with
  | nil =>
    intro data leftover recs _ hleft hmap
    have hrecs : ([] : List Histogram) = recs := Except.ok.inj hmap
    rw [← hrecs, List.map_nil, List.map_nil, List.flatten_nil, List.nil_append, List.append_nil,
      ← List.append_nil leftover,
      histogramLines_acc name leftover data [] [] hleft]
    rfl
  | cons r rs ih =>
    intro data leftover recs hruns hleft hmap
    unfold exMapM at hmap
    obtain ⟨h0, hh0, hrest⟩ := exBind_ok hmap
    obtain ⟨recs', hrecs', hcons⟩ := exMap_ok hrest
    rw [List.map_cons, List.flatten_cons, List.append_assoc, List.append_assoc,
      histogramLines_acc name r.1 data [] _ (hruns r (by simp)).1, List.nil_append,
      List.singleton_append, histogramLines_cons, (hruns r (by simp)).2, if_pos rfl,
      hh0, exbind_ok_eq,
      ih (data ++ [MetricLike.histogram h0]) leftover recs'
        (fun x hx => hruns x (by simp [hx])) hleft hrecs', ← hcons]
    simp

theorem pLines_cons (metrics : List MetricFamily) (cur : List String) (num : Nat)
    (line : String) (rest : List String) :
    pLines metrics cur num (line :: rest) =
      if strStarts line "#" then
        if num = 2 then
          (MetricFamily.from_raw cur).bind fun fam => pLines (metrics ++ [fam]) [line] 1 rest
        else pLines metrics (cur ++ [line]) (num + 1) rest
      else pLines metrics (cur ++ [line]) num rest := rfl

theorem pLines_samples : ∀ (ls : List String) (metrics : List MetricFamily)
    (cur : List String) (num : Nat) (more : List String),
    (∀ l ∈ ls, strStarts l "#" = false) →
    pLines metrics cur num (ls ++ more) = pLines metrics (cur ++ ls) num more := by
  intro ls
  induction ls with
  | nil => intro metrics cur num more _; rw [List.nil_append, List.append_nil]
  | cons l ls' ih =>
    intro metrics cur num more h
    rw [List.cons_append, pLines_cons, (h l (by simp)), if_neg (by simp),
      ih metrics (cur ++ [l]) num more (fun x hx => h x (by simp [hx])),
      List.append_assoc, List.singleton_append]

theorem pLines_chunk (ms : List MetricFamily) (cur : List String) (c : Chunk)
    (more : List String) (hwf : c.wf = true) :
    pLines ms cur 2 (c.lines ++ more) =
      (MetricFamily.from_raw cur).bind fun fam => pLines (ms ++ [fam]) c.lines 2 more := by
  simp only [Chunk.wf, Bool.and_eq_true, List.all_eq_true, Bool.not_eq_true'] at hwf
  obtain ⟨⟨hh, ht⟩, hs⟩ := hwf
  show pLines ms cur 2 (c.helpLine :: (c.typeLine :: (c.samples ++ more))) = _
  rw [pLines_cons, hh, if_pos rfl, if_pos rfl]
  cases hfr : MetricFamily.from_raw cur with
  | error e => rfl
  | ok fam =>
    rw [exbind_ok_eq, exbind_ok_eq]
    show pLines (ms ++ [fam]) [c.helpLine] 1 (c.typeLine :: (c.samples ++ more)) = _
    rw [pLines_cons, ht, if_pos rfl, if_neg (by decide : ¬(1 = 2)),
      pLines_samples c.samples _ _ 2 more hs]
    rfl

theorem pLines_chunk0 (c : Chunk) (more : List String) (hwf : c.wf = true) :
    pLines [] [] 0 (c.lines ++ more) = pLines [] c.lines 2 more := by
  simp only [Chunk.wf, Bool.and_eq_true, List.all_eq_true, Bool.not_eq_true'] at hwf
  obtain ⟨⟨hh, ht⟩, hs⟩ := hwf
  show pLines [] [] 0 (c.helpLine :: (c.typeLine :: (c.samples ++ more))) = _
  rw [pLines_cons, hh, if_pos rfl, if_neg (by decide : ¬(0 = 2))]
  show pLines [] [c.helpLine] 1 (c.typeLine :: (c.samples ++ more)) = _
  rw [pLines_cons, ht, if_pos rfl, if_neg (by decide : ¬(1 = 2)),
    pLines_samples c.samples _ _ 2 more hs]
  rfl

/-- The document scan over a sequence of well-formed family chunks from the
canonical mid-scan state: every chunk flush appends the family built from
the buffer, and the last buffer is never flushed. -/
theorem pLines_chunks : ∀ (chunks : List Chunk) (ms : List MetricFamily)
    (cur : List String) (fams : List MetricFamily),
    (∀ c ∈ chunks, c.wf = true) →
    exMapM MetricFamily.from_raw ((cur :: chunks.map Chunk.lines).dropLast) = .ok fams →
    pLines ms cur 2 ((chunks.map Chunk.lines).flatten) = .ok (ms ++ fams) := by
  intro chunks
  induction chunks with
  | nil =>
    intro ms cur fams _ hmap
    rw [List.map_nil] at hmap
    have hmap' : exMapM MetricFamily.from_raw [] = .ok fams := hmap
    have hf : ([] : List MetricFamily) = fams := Except.ok.inj hmap'
    rw [List.map_nil, List.flatten_nil, ← hf, List.append_nil]
    rfl
  | cons c rest ih =>
    intro ms cur fams hwf hmap
    rw [List.map_cons] at hmap
    have hd : (cur :: c.lines :: rest.map Chunk.lines).dropLast =
        cur :: (c.lines :: rest.map Chunk.lines).dropLast := rfl
    rw [hd] at hmap
    unfold exMapM at hmap
    obtain ⟨fam0, hfam0, hrest⟩ := exBind_ok hmap
    obtain ⟨fams', hfams', hcons⟩ := exMap_ok hrest
    rw [List.map_cons, List.flatten_cons,
      pLines_chunk ms cur c _ (hwf c (by simp)), hfam0, exbind_ok_eq,
      ih (ms ++ [fam0]) c.lines fams' (fun x hx => hwf x (by simp [hx])) hfams', ← hcons]
    simp

theorem exMapM_error_append {f : String → Except ParseError α} {e : ParseError} :
    ∀ (pre : List String) (bad : String) (post : List String),
    (∀ l ∈ pre, ∃ m, f l = .ok m) → f bad = .error e →
    exMapM f (pre ++ bad :: post) = .error e := by
  intro pre
  induction pre with
  | nil =>
    intro bad post _ hbad
    rw [List.nil_append]
    unfold exMapM
    rw [hbad]
    rfl
  | cons p ps ih =>
    intro bad post hok hbad
    obtain ⟨m, hm⟩ := hok p (by simp)
    rw [List.cons_append]
    unfold exMapM
    rw [hm, exbind_ok_eq, ih bad post (fun x hx => hok x (by simp [hx])) hbad]
    rfl

/-- When the family buffer ending right before the next `#` line fails to
build, the whole document parse propagates that error. -/
theorem pLines_flush_error (s h tl : String) (body : List String) (nxt : String)
    (rest : List String) (e : ParseError)
    (hlines : rustLines s = h :: (tl :: (body ++ nxt :: rest)))
    (hh : strStarts h "#" = true) (ht : strStarts tl "#" = true)
    (hsam : ∀ l ∈ body, strStarts l "#" = false)
    (hnxt : strStarts nxt "#" = true)
    (hfr : MetricFamily.from_raw (h :: tl :: body) = .error e) :
    PrometheusData.from_string s = .error e := by
  unfold PrometheusData.from_string PrometheusData.from_lines
  rw [hlines, pLines_cons, hh, if_pos rfl, if_neg (by decide : ¬(0 = 2)),
    pLines_cons, ht, if_pos rfl, if_neg (by decide : ¬(1 = 2)),
    pLines_samples body _ _ 2 _ hsam,
    pLines_cons, hnxt, if_pos rfl,
    show ((([] ++ [h]) ++ [tl]) ++ body) = h :: tl :: body by simp,
    hfr]
  rfl

/-- Completed runs at the start of a summary family's lines produce their
records and the scan continues on the remaining lines. -/
theorem summaryLines_runs_pre (name : String) : ∀ (runs : List (List String × String))
    (data : List MetricLike) (tail : List String) (recs : List Summary),
    (∀ r ∈ runs, (∀ l ∈ r.1, strStarts l (name ++ "_count") = false) ∧
      strStarts r.2 (name ++ "_count") = true) →
    exMapM (fun r => Summary.from_raw name (r.1 ++ [r.2])) runs = .ok recs →
    summaryLines name data [] ((runs.map fun r => r.1 ++ [r.2]).flatten ++ tail) =
      summaryLines name (data ++ recs.map MetricLike.summary) [] tail := by
  intro runs
  induction runs with
  | nil =>
    intro data tail recs _ hmap
    have hrecs : ([] : List Summary) = recs := Except.ok.inj hmap
    rw [← hrecs, List.map_nil, List.map_nil, List.flatten_nil, List.nil_append,
      List.append_nil]
  | cons r rs ih =>
    intro data tail recs hruns hmap
    unfold exMapM at hmap
    obtain ⟨s0, hs0, hrest⟩ := exBind_ok hmap
    obtain ⟨recs', hrecs', hcons⟩ := exMap_ok hrest
    rw [List.map_cons, List.flatten_cons, List.append_assoc, List.append_assoc,
      summaryLines_acc name r.1 data [] _ (hruns r (by simp)).1, List.nil_append,
      List.singleton_append, summaryLines_cons, (hruns r (by simp)).2, if_pos rfl,
      hs0, exbind_ok_eq,
      ih (data ++ [MetricLike.summary s0]) tail recs'
        (fun x hx => hruns x (by simp [hx])) hrecs', ← hcons]
    simp

/-- Histogram analogue of `summaryLines_runs_pre`. -/
theorem histogramLines_runs_pre (name : String) : ∀ (runs : List (List String × String))
    (data : List MetricLike) (tail : List String) (recs : List Histogram),
    (∀ r ∈ runs, (∀ l ∈ r.1, strStarts l (name ++ "_count") = false) ∧
      strStarts r.2 (name ++ "_count") = true) →
    exMapM (fun r => Histogram.from_raw name (r.1 ++ [r.2])) runs = .ok recs →
    histogramLines name data [] ((runs.map fun r => r.1 ++ [r.2]).flatten ++ tail) =
      histogramLines name (data ++ recs.map MetricLike.histogram) [] tail := by
  intro runs
  induction runs with
  | nil =>
    intro data tail recs _ hmap
    have hrecs : ([] : List Histogram) = recs := Except.ok.inj hmap
    rw [← hrecs, List.map_nil, List.map_nil, List.flatten_nil, List.nil_append,
      List.append_nil]
  | cons r rs ih =>
    intro data tail recs hruns hmap
    unfold exMapM at hmap
    obtain ⟨h0, hh0, hrest⟩ := exBind_ok hmap
    obtain ⟨recs', hrecs', hcons⟩ := exMap_ok hrest
    rw [List.map_cons, List.flatten_cons, List.append_assoc, List.append_assoc,
      histogramLines_acc name r.1 data [] _ (hruns r (by simp)).1, List.nil_append,
      List.singleton_append, histogramLines_cons, (hruns r (by simp)).2, if_pos rfl,
      hh0, exbind_ok_eq,
      ih (data ++ [MetricLike.histogram h0]) tail recs'
        (fun x hx => hruns x (by simp [hx])) hrecs', ← hcons]
    simp

/-- A line matching no prefix and no labeled shape inside a run that a
`<name>_count` line closes makes the summary scan fail with the
invalid-format error for that line. -/
theorem summaryLines_malformed (nm : String) (data : List MetricLike)
    (pre mid post : List String) (bad cnt : String) (stA : SState)
    (hpre : ∀ l ∈ pre, strStarts l (nm ++ "_count") = false)
    (hbs : strStarts bad (nm ++ "_sum") = false)
    (hbc : strStarts bad (nm ++ "_count") = false)
    (hmid : ∀ l ∈ mid, strStarts l (nm ++ "_count") = false)
    (hcnt : strStarts cnt (nm ++ "_count") = true)
    (hpreok : summaryRun nm ⟨"", "", [], []⟩ pre = .ok stA)
    (hbadfw : findWithLabel bad.data = none) :
    summaryLines nm data [] (pre ++ bad :: (mid ++ cnt :: post)) =
      .error (.invalidFormat bad) := by
  have hbadstep : summaryStep nm stA bad = .error (.invalidFormat bad) := by
    unfold summaryStep
    rw [hbs, if_neg (by simp), hbc, if_neg (by simp), hbadfw]
  have hrunerr : Summary.from_raw nm ((pre ++ bad :: mid) ++ [cnt]) =
      .error (.invalidFormat bad) := by
    unfold Summary.from_raw
    rw [summaryRun_append nm (pre ++ bad :: mid) [cnt],
      summaryRun_append nm pre (bad :: mid), hpreok, exbind_ok_eq]
    have e1 : summaryRun nm stA (bad :: mid) =
        (summaryStep nm stA bad).bind fun st' => summaryRun nm st' mid := rfl
    rw [e1, hbadstep]
    rfl
  have hnc : ∀ l ∈ pre ++ bad :: mid, strStarts l (nm ++ "_count") = false := by
    intro l hl
    rcases List.mem_append.mp hl with h1 | h2
    · exact hpre l h1
    · rcases List.mem_cons.mp h2 with rfl | h3
      · exact hbc
      · exact hmid l h3
  rw [show pre ++ bad :: (mid ++ cnt :: post) = (pre ++ bad :: mid) ++ cnt :: post by simp,
    summaryLines_acc nm (pre ++ bad :: mid) data [] (cnt :: post) hnc, List.nil_append,
    summaryLines_cons, hcnt, if_pos rfl, hrunerr]
  rfl

/-- Histogram analogue of `summaryLines_malformed`. -/
theorem histogramLines_malformed (nm : String) (data : List MetricLike)
    (pre mid post : List String) (bad cnt : String) (stA : HState)
    (hpre : ∀ l ∈ pre, strStarts l (nm ++ "_count") = false)
    (hbs : strStarts bad (nm ++ "_sum") = false)
    (hbc : strStarts bad (nm ++ "_count") = false)
    (hmid : ∀ l ∈ mid, strStarts l (nm ++ "_count") = false)
    (hcnt : strStarts cnt (nm ++ "_count") = true)
    (hpreok : histRun nm ⟨"", "", [], []⟩ pre = .ok stA)
    (hbadfw : findWithLabel bad.data = none) :
    histogramLines nm data [] (pre ++ bad :: (mid ++ cnt :: post)) =
      .error (.invalidFormat bad) := by
  have hbadstep : histStep nm stA bad = .error (.invalidFormat bad) := by
    unfold histStep
    rw [hbs, if_neg (by simp), hbc, if_neg (by simp), hbadfw]
  have hrunerr : Histogram.from_raw nm ((pre ++ bad :: mid) ++ [cnt]) =
      .error (.invalidFormat bad) := by
    unfold Histogram.from_raw
    rw [histRun_append nm (pre ++ bad :: mid) [cnt],
      histRun_append nm pre (bad :: mid), hpreok, exbind_ok_eq]
    have e1 : histRun nm stA (bad :: mid) =
        (histStep nm stA bad).bind fun st' => histRun nm st' mid := rfl
    rw [e1, hbadstep]
    rfl
  have hnc : ∀ l ∈ pre ++ bad :: mid, strStarts l (nm ++ "_count") = false := by
    intro l hl
    rcases List.mem_append.mp hl with h1 | h2
    · exact hpre l h1
    · rcases List.mem_cons.mp h2 with rfl | h3
      · exact hbc
      · exact hmid l h3
  rw [show pre ++ bad :: (mid ++ cnt :: post) = (pre ++ bad :: mid) ++ cnt :: post by simp,
    histogramLines_acc nm (pre ++ bad :: mid) data [] (cnt :: post) hnc, List.nil_append,
    histogramLines_cons, hcnt, if_pos rfl, hrunerr]
  rfl

/-- C10: `parse_from_string` tries the unlabeled pattern first and both
patterns are unanchored searches, so the labeled line
`m{msg="took 5"} 1` is parsed as the number `5` found inside the label
value, with no labels — not as the labeled interpretation, which would
yield value `1` and label set `{msg: took 5}`. -/
theorem parse_from_string_prefers_unlabeled_inside_label :
    parse_from_string "m\x7bmsg=\"took 5\"\x7d 1" = .ok ("5", none) ∧
    findNoLabel ("m\x7bmsg=\"took 5\"\x7d 1").data = some "5".data ∧
    (findWithLabel ("m\x7bmsg=\"took 5\"\x7d 1").data).map
        (fun r => (String.mk r.2,
          (labelCaptures r.1).foldl (fun m p => hmInsert m p.1 p.2) [])) =
      some ("1", [("msg", "took 5")]) := by
  decide

/-- C2 (code bug): on a summary run with quantile lines `0.5 ↦ 1` and
`0.9 ↦ 2`, the code stores the captured pair as `(key, value)`, producing
the single entry `"quantile" ↦ "0.9"` — the quantile strings never become
keys and the sample values are discarded (contrast the histogram branch,
which hoists `le` correctly). -/
theorem summary_quantiles_keyed_by_literal_key :
    Summary.from_raw "q" ["q\x7bquantile=\"0.5\"\x7d 1", "q\x7bquantile=\"0.9\"\x7d 2",
        "q_sum 3", "q_count 2"] =
      .ok { labels := some [], quantiles := [("quantile", "0.9")],
            count := "2", sum := "3" } ∧
    (Summary.from_raw "q" ["q\x7bquantile=\"0.5\"\x7d 1", "q\x7bquantile=\"0.9\"\x7d 2",
        "q_sum 3", "q_count 2"]).map (fun r => List.lookup "0.5" r.quantiles) =
      .ok none := by
  decide

/-- C1 (counterexample): the document with exactly two gauge families from
the source's own test yields ONE emitted `MetricFamily`, not two — the
final family is never flushed by `PrometheusData::from_string`. -/
theorem from_string_two_families_yields_one :
    (PrometheusData.from_string ("# HELP go_goroutines Number of goroutines that currently exist.\n# TYPE go_goroutines gauge\ngo_goroutines 31\n# HELP go_info Information about the Go environment.\n# TYPE go_info gauge\ngo_info\x7bversion=\"go1.15.5\"\x7d 1")).map
        (fun d => d.metrics.length) = .ok 1 ∧
    (PrometheusData.from_string ("# HELP go_goroutines Number of goroutines that currently exist.\n# TYPE go_goroutines gauge\ngo_goroutines 31\n# HELP go_info Information about the Go environment.\n# TYPE go_info gauge\ngo_info\x7bversion=\"go1.15.5\"\x7d 1")).map
        (fun d => d.metrics.length) ≠ .ok 2 := by
  constructor
  · decide
  · decide

/-- C3 (counterexample): the well-formed labeled line `m{note="at 2"} 7`
is not parsed to value `7` with label set `{note: at 2}`; the unanchored
unlabeled pattern matches inside the label value first and returns
`("2", none)`. -/
theorem parse_from_string_labeled_line_misparsed :
    parse_from_string "m\x7bnote=\"at 2\"\x7d 7" = .ok ("2", none) ∧
    parse_from_string "m\x7bnote=\"at 2\"\x7d 7" ≠ .ok ("7", some [("note", "at 2")]) := by
  constructor
  · decide
  · decide

/-- C7 (counterexample): a summary run in which no line contributes a
non-reserved label still produces `labels = Some({})` — an empty map that
is present, not absent. -/
theorem summary_labels_present_when_empty :
    (Summary.from_raw "q" ["q_sum 1", "q_count 2"]).map (fun r => r.labels) =
      .ok (some []) ∧
    (Summary.from_raw "q" ["q_sum 1", "q_count 2"]).map (fun r => r.labels) ≠
      .ok none := by
  constructor
  · decide
  · decide

/-- C9 (counterexample): the document `# HELP m h / # TYPE m gauge /
bad line !` contains a sample line matching neither shape, yet parsing
does not abort: the trailing family is never flushed, so its lines are
never classified and an (empty) document is emitted. -/
theorem malformed_line_in_trailing_family_not_fatal :
    PrometheusData.from_string "# HELP m h\n# TYPE m gauge\nbad line !" =
      .ok { metrics := [] } ∧
    parse_from_string "bad line !" = .error (.invalidFormat "bad line !") := by
  constructor
  · decide
  · decide

/-- C8: the 4th whitespace token of the TYPE line selects the metric type:
`gauge` and `counter` both map to `Gauge`, `histogram` to `Histogram`,
`summary` to `Summary`, and the unknown-metric-type error occurs exactly
when the keyword is any other string. -/
theorem metric_name_and_type_spec (line name ty : String)
    (h2 : (splitWs line).get? 2 = some name)
    (h3 : (splitWs line).get? 3 = some ty) :
    ((ty = "gauge" ∨ ty = "counter") →
      metric_name_and_type line = .ok (name, MetricType.Gauge)) ∧
    (ty = "histogram" → metric_name_and_type line = .ok (name, MetricType.Histogram)) ∧
    (ty = "summary" → metric_name_and_type line = .ok (name, MetricType.Summary)) ∧
    (metric_name_and_type line = .error (.unknownMetricType ty) ↔
      ¬(ty = "gauge" ∨ ty = "counter" ∨ ty = "histogram" ∨ ty = "summary")) := by
  unfold metric_name_and_type
  simp only [h2, h3]
  by_cases hg : ty = "gauge"
  · subst hg; simp
  · by_cases hc : ty = "counter"
    · subst hc; simp
    · by_cases hh : ty = "histogram"
      · subst hh; simp
      · by_cases hs : ty = "summary"
        · subst hs; simp
        · simp [hg, hc, hh, hs]

/-- C3 (amended): for every well-formed unlabeled line `<name> <value>` the
classifier returns `(value, None)` with the value text preserved exactly
(including `NaN` and scientific notation, by quantifying over all numeric
tokens); for every well-formed labeled line on which the unanchored
unlabeled pattern finds no match, it returns the value and the LabelSet of
the `name="value"` fragments. -/
theorem line_classifier_spec :
    (∀ (name : String) (t : NumTok), identOk name = true → t.valid = true →
      parse_from_string (mkUnlabeled name t) = .ok (String.mk t.render, none)) ∧
    (∀ (name : String) (pairs : List (String × String)) (t : NumTok),
      identOk name = true → (∀ p ∈ pairs, pairOk p = true) → t.valid = true →
      (pairs.map Prod.fst).Nodup →
      findNoLabel (mkLabeled name pairs t).data = none →
      parse_from_string (mkLabeled name pairs t) = .ok (String.mk t.render, some pairs)) :=
  ⟨parse_unlabeled, parse_labeled⟩

/-- Witness for C3 at the two sample lines of the repository's test data. -/
theorem line_classifier_spec_witness :
    parse_from_string "go_goroutines 31" = .ok ("31", none) ∧
    parse_from_string "go_info\x7bversion=\"go1.15.5\"\x7d 1" =
      .ok ("1", some [("version", "go1.15.5")]) := by
  constructor
  · have h := line_classifier_spec.1 "go_goroutines" (NumTok.num false ['3', '1'] none)
      (by decide) (by decide)
    rw [show mkUnlabeled "go_goroutines" (NumTok.num false ['3', '1'] none) =
        "go_goroutines 31" by decide,
      show String.mk (NumTok.num false ['3', '1'] none).render = "31" by decide] at h
    exact h
  · have h := line_classifier_spec.2 "go_info" [("version", "go1.15.5")]
      (NumTok.num false ['1'] none) (by decide) (by decide) (by decide) (by decide) (by decide)
    rw [show mkLabeled "go_info" [("version", "go1.15.5")] (NumTok.num false ['1'] none) =
        "go_info\x7bversion=\"go1.15.5\"\x7d 1" by decide,
      show String.mk (NumTok.num false ['1'] none).render = "1" by decide] at h
    exact h

/-- C4: in a summary or histogram run, the `<name>_sum`/`<name>_count`
prefixed lines supply exactly the record's `sum` and `count` (their raw
values as parsed by the classifier), and deleting those two lines does not
change the record's labels (or quantiles/buckets): the label fragments on
the `_sum`/`_count` lines themselves are never merged. -/
theorem sum_count_lines_spec :
    (∀ (name : String) (pre mid post : List String) (sline cline vs vc : String)
      (ls lc : Option (List (String × String))) (r0 : Summary),
      (∀ l ∈ pre ++ mid ++ post, strStarts l (name ++ "_sum") = false ∧
        strStarts l (name ++ "_count") = false) →
      strStarts sline (name ++ "_sum") = true →
      strStarts cline (name ++ "_count") = true →
      strStarts cline (name ++ "_sum") = false →
      parse_from_string sline = .ok (vs, ls) →
      parse_from_string cline = .ok (vc, lc) →
      Summary.from_raw name (pre ++ mid ++ post) = .ok r0 →
      Summary.from_raw name (pre ++ [sline] ++ mid ++ [cline] ++ post) =
        .ok { labels := r0.labels, quantiles := r0.quantiles, count := vc, sum := vs }) ∧
    (∀ (name : String) (pre mid post : List String) (sline cline vs vc : String)
      (ls lc : Option (List (String × String))) (r0 : Histogram),
      (∀ l ∈ pre ++ mid ++ post, strStarts l (name ++ "_sum") = false ∧
        strStarts l (name ++ "_count") = false) →
      strStarts sline (name ++ "_sum") = true →
      strStarts cline (name ++ "_count") = true →
      strStarts cline (name ++ "_sum") = false →
      parse_from_string sline = .ok (vs, ls) →
      parse_from_string cline = .ok (vc, lc) →
      Histogram.from_raw name (pre ++ mid ++ post) = .ok r0 →
      Histogram.from_raw name (pre ++ [sline] ++ mid ++ [cline] ++ post) =
        .ok { labels := r0.labels, buckets := r0.buckets, count := vc, sum := vs }) :=
  ⟨summary_sum_count, hist_sum_count⟩

/-- Witness for C4: labeled `_sum` lines contribute only their value; the
records' labels stay empty. -/
theorem sum_count_lines_spec_witness :
    Summary.from_raw "q" ["q_sum\x7ba=\"b\"\x7d 3", "q_count 2"] =
      .ok { labels := some [], quantiles := [], count := "2", sum := "3" } ∧
    Histogram.from_raw "h" ["h_sum\x7bx=\"y\"\x7d 1.5", "h_count 7"] =
      .ok { labels := some [], buckets := [], count := "7", sum := "1.5" } :=
  ⟨sum_count_lines_spec.1 "q" [] [] [] "q_sum\x7ba=\"b\"\x7d 3" "q_count 2" "3" "2"
      (some [("a", "b")]) none { labels := some [], quantiles := [], count := "", sum := "" }
      (by simp) (by decide) (by decide) (by decide) (by decide) (by decide) (by decide),
   sum_count_lines_spec.2 "h" [] [] [] "h_sum\x7bx=\"y\"\x7d 1.5" "h_count 7" "1.5" "7"
      (some [("x", "y")]) none { labels := some [], buckets := [], count := "", sum := "" }
      (by simp) (by decide) (by decide) (by decide) (by decide) (by decide) (by decide)⟩

/-- C7 (amended): a gauge sample built from an unlabeled line has
`labels = None`; Summary and Histogram records, by contrast, always carry
`labels = Some(map)` — present even when the map is empty. -/
theorem labels_presence_spec :
    (∀ (name : String) (t : NumTok), identOk name = true → t.valid = true →
      Metric.from_string (mkUnlabeled name t) =
        .ok { labels := none, value := String.mk t.render }) ∧
    (∀ (name : String) (lines : List String) (r : Summary),
      Summary.from_raw name lines = .ok r → ∃ L, r.labels = some L) ∧
    (∀ (name : String) (lines : List String) (r : Histogram),
      Histogram.from_raw name lines = .ok r → ∃ L, r.labels = some L) := by
  refine ⟨?_, ?_, ?_⟩
  · intro name t hn ht
    unfold Metric.from_string
    rw [parse_unlabeled name t hn ht]
    rfl
  · intro name lines r h
    unfold Summary.from_raw at h
    obtain ⟨st, -, hwrap⟩ := exMap_ok h
    exact ⟨st.labels, by rw [← hwrap]⟩
  · intro name lines r h
    unfold Histogram.from_raw at h
    obtain ⟨st, -, hwrap⟩ := exMap_ok h
    exact ⟨st.labels, by rw [← hwrap]⟩

/-- Witness for C7's amended statement at concrete inputs. -/
theorem labels_presence_spec_witness :
    Metric.from_string "go_goroutines 31" = .ok { labels := none, value := "31" } ∧
    (∃ L, ({ labels := some [], quantiles := [], count := "2", sum := "1" } : Summary).labels =
      some L) ∧
    (∃ L, ({ labels := some [], buckets := [], count := "2", sum := "1" } : Histogram).labels =
      some L) := by
  refine ⟨?_, ?_, ?_⟩
  · have h := labels_presence_spec.1 "go_goroutines" (NumTok.num false ['3', '1'] none)
      (by decide) (by decide)
    rw [show mkUnlabeled "go_goroutines" (NumTok.num false ['3', '1'] none) =
        "go_goroutines 31" by decide,
      show String.mk (NumTok.num false ['3', '1'] none).render = "31" by decide] at h
    exact h
  · exact labels_presence_spec.2.1 "q" ["q_sum 1", "q_count 2"] _ (by decide)
  · exact labels_presence_spec.2.2 "h" ["h_sum 1", "h_count 2"] _ (by decide)

/-- C5: for a histogram run of bucket lines sharing the fragments `other`
plus one `le` fragment each, the record's buckets map each line's bound
text to that line's cumulative count value, in order, and the record's
labels are exactly the non-`le` fragments, with `le` itself excluded. -/
theorem histogram_buckets_spec (name bname : String) (other : List (String × String))
    (bvs : List (String × NumTok))
    (hb : identOk bname = true)
    (hok : ∀ p ∈ other, pairOk p = true)
    (hle : ∀ p ∈ other, p.1 ≠ "le")
    (hnd : (other.map Prod.fst).Nodup)
    (hbv : ∀ q ∈ bvs, pairOk ("le", q.1) = true ∧ q.2.valid = true ∧
      strStarts (mkLabeled bname (other ++ [("le", q.1)]) q.2) (name ++ "_sum") = false ∧
      strStarts (mkLabeled bname (other ++ [("le", q.1)]) q.2) (name ++ "_count") = false)
    (hbnd : (bvs.map Prod.fst).Nodup)
    (hne : bvs ≠ []) :
    Histogram.from_raw name (bvs.map fun q => mkLabeled bname (other ++ [("le", q.1)]) q.2) =
      .ok { labels := some other,
            buckets := bvs.map fun q => (q.1, String.mk q.2.render),
            count := "", sum := "" } ∧
    List.lookup "le" other = none := by
  refine ⟨?_, lookup_none_of_keys other hle⟩
  rcases bvs with _ | ⟨q, qs⟩
  · exact absurd rfl hne
  obtain ⟨hqok, hqval, hqs, hqc⟩ := hbv q (by simp)
  have hpall : ∀ p ∈ other ++ [("le", q.1)], pairOk p = true := by
    intro p hp
    rcases List.mem_append.mp hp with hp' | hp'
    · exact hok p hp'
    · have hpe : p = ("le", q.1) := by simpa using hp'
      rw [hpe]
      exact hqok
  unfold Histogram.from_raw
  rw [List.map_cons]
  have e1 : histRun name ⟨"", "", [], []⟩
      (mkLabeled bname (other ++ [("le", q.1)]) q.2 ::
        qs.map fun r => mkLabeled bname (other ++ [("le", r.1)]) r.2) =
      (histStep name ⟨"", "", [], []⟩
        (mkLabeled bname (other ++ [("le", q.1)]) q.2)).bind
        fun st' => histRun name st'
          (qs.map fun r => mkLabeled bname (other ++ [("le", r.1)]) r.2) := rfl
  simp only [List.map_cons, List.nodup_cons, List.mem_map] at hbnd
  rw [e1, histStep_labeled hqs hqc hb hpall hqval,
    histLabeledFold_line (String.mk q.2.render) other q.1 [] [] hle,
    foldl_hmInsert_nil other hnd,
    hmInsert_fresh (fun pb hpb => absurd hpb (List.not_mem_nil pb)),
    exbind_ok_eq]
  have hrun := histRun_buckets name bname other hle hnd hb hok qs
    ([] ++ [(q.1, String.mk q.2.render)]) "" ""
    (fun r hr => hbv r (by simp [hr])) ?hfresh hbnd.2
  case hfresh =>
    intro r hr pb hpb
    have hpbe : pb = (q.1, String.mk q.2.render) := by simpa using hpb
    rw [hpbe]
    intro hcon
    exact hbnd.1 ⟨r, hr, hcon.symm⟩
  rw [hrun, exmap_ok_eq]
  rfl

/-- Witness for C5 at two concrete bucket lines shaped like the
repository's histogram test data. -/
theorem histogram_buckets_spec_witness :
    Histogram.from_raw "h"
      ["h_bucket\x7bhandler=\"/metrics\",le=\"0.1\"\x7d 10",
       "h_bucket\x7bhandler=\"/metrics\",le=\"+Inf\"\x7d 12"] =
      .ok { labels := some [("handler", "/metrics")],
            buckets := [("0.1", "10"), ("+Inf", "12")], count := "", sum := "" } ∧
    List.lookup "le" [("handler", "/metrics")] = none := by
  have h := histogram_buckets_spec "h" "h_bucket" [("handler", "/metrics")]
    [("0.1", NumTok.num false ['1', '0'] none), ("+Inf", NumTok.num false ['1', '2'] none)]
    (by decide) (by decide) (by decide) (by decide) (by decide) (by decide) (by decide)
  rw [show ([("0.1", NumTok.num false ['1', '0'] none),
        ("+Inf", NumTok.num false ['1', '2'] none)].map fun q =>
        mkLabeled "h_bucket" ([("handler", "/metrics")] ++ [("le", q.1)]) q.2) =
      ["h_bucket\x7bhandler=\"/metrics\",le=\"0.1\"\x7d 10",
       "h_bucket\x7bhandler=\"/metrics\",le=\"+Inf\"\x7d 12"] by decide,
    show ([("0.1", NumTok.num false ['1', '0'] none),
        ("+Inf", NumTok.num false ['1', '2'] none)].map fun q =>
        (q.1, String.mk q.2.render)) = [("0.1", "10"), ("+Inf", "12")] by decide] at h
  exact h

/-- C6: in a histogram or summary family, lines accumulate into a growing
run; each `<name>_count`-prefixed line closes the run including itself and
produces exactly one record (so the records are in bijection with the
`_count` lines), and a leftover run never terminated by a `_count` line
produces no record at all. -/
theorem family_run_split_spec :
    (∀ (h tl nm hp : String) (runs : List (List String × String)) (leftover : List String)
      (recs : List Summary),
      metric_help_fron_raw h = .ok hp →
      metric_name_and_type tl = .ok (nm, MetricType.Summary) →
      (∀ r ∈ runs, (∀ l ∈ r.1, strStarts l (nm ++ "_count") = false) ∧
        strStarts r.2 (nm ++ "_count") = true) →
      (∀ l ∈ leftover, strStarts l (nm ++ "_count") = false) →
      exMapM (fun r => Summary.from_raw nm (r.1 ++ [r.2])) runs = .ok recs →
      MetricFamily.from_raw
          (h :: tl :: ((runs.map fun r => r.1 ++ [r.2]).flatten ++ leftover)) =
        .ok { metric_type := MetricType.Summary, metric_name := nm, help := hp,
              data := recs.map MetricLike.summary } ∧
      recs.length = runs.length) ∧
    (∀ (h tl nm hp : String) (runs : List (List String × String)) (leftover : List String)
      (recs : List Histogram),
      metric_help_fron_raw h = .ok hp →
      metric_name_and_type tl = .ok (nm, MetricType.Histogram) →
      (∀ r ∈ runs, (∀ l ∈ r.1, strStarts l (nm ++ "_count") = false) ∧
        strStarts r.2 (nm ++ "_count") = true) →
      (∀ l ∈ leftover, strStarts l (nm ++ "_count") = false) →
      exMapM (fun r => Histogram.from_raw nm (r.1 ++ [r.2])) runs = .ok recs →
      MetricFamily.from_raw
          (h :: tl :: ((runs.map fun r => r.1 ++ [r.2]).flatten ++ leftover)) =
        .ok { metric_type := MetricType.Histogram, metric_name := nm, help := hp,
              data := recs.map MetricLike.histogram } ∧
      recs.length = runs.length) := by
  constructor
  · intro h tl nm hp runs leftover recs hhelp htype hruns hleft hmap
    refine ⟨?_, exMapM_length hmap⟩
    simp only [MetricFamily.from_raw, hhelp, exbind_ok_eq, htype]
    rw [summaryLines_runs nm runs [] leftover recs hruns hleft hmap, exmap_ok_eq]
    rfl
  · intro h tl nm hp runs leftover recs hhelp htype hruns hleft hmap
    refine ⟨?_, exMapM_length hmap⟩
    simp only [MetricFamily.from_raw, hhelp, exbind_ok_eq, htype]
    rw [histogramLines_runs nm runs [] leftover recs hruns hleft hmap, exmap_ok_eq]
    rfl

/-- Witness for C6: one completed run yields one record; the trailing
unterminated line yields none. -/
theorem family_run_split_spec_witness :
    MetricFamily.from_raw
        ["# HELP q h", "# TYPE q summary", "q\x7bquantile=\"0.5\"\x7d 1", "q_count 2",
         "q\x7bquantile=\"0.9\"\x7d 7"] =
      .ok { metric_type := MetricType.Summary, metric_name := "q", help := "h",
            data := [MetricLike.summary
              { labels := some [], quantiles := [("quantile", "0.5")],
                count := "2", sum := "" }] } ∧
    MetricFamily.from_raw
        ["# HELP hh h2", "# TYPE hh histogram", "hh_bucket\x7ble=\"1\"\x7d 3", "hh_count 3"] =
      .ok { metric_type := MetricType.Histogram, metric_name := "hh", help := "h2",
            data := [MetricLike.histogram
              { labels := some [], buckets := [("1", "3")], count := "3", sum := "" }] } := by
  constructor
  · have h := (family_run_split_spec.1 "# HELP q h" "# TYPE q summary" "q" "h"
      [(["q\x7bquantile=\"0.5\"\x7d 1"], "q_count 2")] ["q\x7bquantile=\"0.9\"\x7d 7"]
      [{ labels := some [], quantiles := [("quantile", "0.5")], count := "2", sum := "" }]
      (by decide) (by decide) (by decide) (by decide) (by decide)).1
    rw [show (([(["q\x7bquantile=\"0.5\"\x7d 1"], "q_count 2")].map
          fun r => r.1 ++ [r.2]).flatten ++ ["q\x7bquantile=\"0.9\"\x7d 7"]) =
        ["q\x7bquantile=\"0.5\"\x7d 1", "q_count 2", "q\x7bquantile=\"0.9\"\x7d 7"] by decide] at h
    exact h
  · have h := (family_run_split_spec.2 "# HELP hh h2" "# TYPE hh histogram" "hh" "h2"
      [(["hh_bucket\x7ble=\"1\"\x7d 3"], "hh_count 3")] []
      [{ labels := some [], buckets := [("1", "3")], count := "3", sum := "" }]
      (by decide) (by decide) (by decide) (by decide) (by decide)).1
    rw [show (([(["hh_bucket\x7ble=\"1\"\x7d 3"], "hh_count 3")].map
          fun r => r.1 ++ [r.2]).flatten ++ ([] : List String)) =
        ["hh_bucket\x7ble=\"1\"\x7d 3", "hh_count 3"] by decide] at h
    exact h

/-- C1 (amended): for a document made of well-formed family chunks, the
emitted families are exactly those of all chunks but the last, in source
order — one fewer than the number of HELP/TYPE pairs, because a family is
flushed only when a third `#` line arrives and the final buffer is never
flushed. -/
theorem from_string_chunks (s : String) (chunks : List Chunk) (fams : List MetricFamily)
    (hne : chunks ≠ [])
    (hlines : rustLines s = (chunks.map Chunk.lines).flatten)
    (hwf : ∀ c ∈ chunks, c.wf = true)
    (hmap : exMapM MetricFamily.from_raw ((chunks.map Chunk.lines).dropLast) = .ok fams) :
    PrometheusData.from_string s = .ok ⟨fams⟩ ∧ fams.length + 1 = chunks.length := by
  constructor
  · unfold PrometheusData.from_string PrometheusData.from_lines
    rw [hlines]
    rcases chunks with _ | ⟨c0, rest⟩
    · exact absurd rfl hne
    rw [List.map_cons] at hmap ⊢
    rw [List.flatten_cons, pLines_chunk0 c0 _ (hwf c0 (by simp)),
      pLines_chunks rest [] c0.lines fams (fun x hx => hwf x (by simp [hx])) hmap]
    rfl
  · have hlen := exMapM_length hmap
    rw [List.length_dropLast, List.length_map] at hlen
    rcases chunks with _ | ⟨c0, rest⟩
    · exact absurd rfl hne
    simp only [List.length_cons] at hlen ⊢
    omega

/-- Witness for C1's amended statement: the two-gauge-family document of
the repository's own test yields exactly the first family. -/
theorem from_string_chunks_witness :
    PrometheusData.from_string "# HELP go_goroutines Number of goroutines that currently exist.\n# TYPE go_goroutines gauge\ngo_goroutines 31\n# HELP go_info Information about the Go environment.\n# TYPE go_info gauge\ngo_info\x7bversion=\"go1.15.5\"\x7d 1" =
      .ok ⟨[{ metric_type := MetricType.Gauge, metric_name := "go_goroutines",
              help := "Number of goroutines that currently exist.",
              data := [MetricLike.metric { labels := none, value := "31" }] }]⟩ ∧
    (1 : Nat) + 1 = 2 :=
  from_string_chunks
    "# HELP go_goroutines Number of goroutines that currently exist.\n# TYPE go_goroutines gauge\ngo_goroutines 31\n# HELP go_info Information about the Go environment.\n# TYPE go_info gauge\ngo_info\x7bversion=\"go1.15.5\"\x7d 1"
    [{ helpLine := "# HELP go_goroutines Number of goroutines that currently exist.",
       typeLine := "# TYPE go_goroutines gauge", samples := ["go_goroutines 31"] },
     { helpLine := "# HELP go_info Information about the Go environment.",
       typeLine := "# TYPE go_info gauge", samples := ["go_info\x7bversion=\"go1.15.5\"\x7d 1"] }]
    [{ metric_type := MetricType.Gauge, metric_name := "go_goroutines",
       help := "Number of goroutines that currently exist.",
       data := [MetricLike.metric { labels := none, value := "31" }] }]
    (by simp) (by decide) (by decide) (by decide)

/-- C9 (amended): a sample line matching neither shape aborts the whole
parse exactly when the parser classifies it. (1) In a flushed gauge
family every sample line is classified, so a malformed line anywhere in
it aborts the parse with that line's error. (2)/(3) In a flushed summary
or histogram family a line is classified only when a later
`<name>_count` line closes its run, so a malformed line inside such a
closed run — after any number of well-formed closed runs — aborts the
parse with the invalid-format error for that line. (4)/(5) A malformed
line in a flushed summary or histogram family's unterminated trailing
run is never classified: the parse succeeds and emits the family without
it. -/
theorem malformed_line_abort_spec :
    (∀ (s h tl : String) (pre post : List String) (bad nxt : String) (rest : List String)
      (hp nm : String) (e : ParseError),
      rustLines s = h :: (tl :: ((pre ++ bad :: post) ++ nxt :: rest)) →
      strStarts h "#" = true → strStarts tl "#" = true →
      (∀ l ∈ pre ++ bad :: post, strStarts l "#" = false) →
      strStarts nxt "#" = true →
      metric_help_fron_raw h = .ok hp →
      metric_name_and_type tl = .ok (nm, MetricType.Gauge) →
      (∀ l ∈ pre, ∃ m, Metric.from_string l = .ok m) →
      parse_from_string bad = .error e →
      PrometheusData.from_string s = .error e) ∧
    (∀ (s h tl : String) (runs : List (List String × String)) (recs : List Summary)
      (pre mid post : List String) (bad cnt nxt : String) (rest : List String)
      (hp nm : String) (stA : SState),
      rustLines s = h :: (tl :: (((runs.map fun r => r.1 ++ [r.2]).flatten ++
        (pre ++ bad :: (mid ++ cnt :: post))) ++ nxt :: rest)) →
      strStarts h "#" = true → strStarts tl "#" = true →
      (∀ l ∈ (runs.map fun r => r.1 ++ [r.2]).flatten ++ (pre ++ bad :: (mid ++ cnt :: post)),
        strStarts l "#" = false) →
      strStarts nxt "#" = true →
      metric_help_fron_raw h = .ok hp →
      metric_name_and_type tl = .ok (nm, MetricType.Summary) →
      (∀ r ∈ runs, (∀ l ∈ r.1, strStarts l (nm ++ "_count") = false) ∧
        strStarts r.2 (nm ++ "_count") = true) →
      exMapM (fun r => Summary.from_raw nm (r.1 ++ [r.2])) runs = .ok recs →
      (∀ l ∈ pre, strStarts l (nm ++ "_count") = false) →
      strStarts bad (nm ++ "_sum") = false →
      strStarts bad (nm ++ "_count") = false →
      (∀ l ∈ mid, strStarts l (nm ++ "_count") = false) →
      strStarts cnt (nm ++ "_count") = true →
      summaryRun nm ⟨"", "", [], []⟩ pre = .ok stA →
      findNoLabel bad.data = none →
      findWithLabel bad.data = none →
      PrometheusData.from_string s = .error (.invalidFormat bad)) ∧
    (∀ (s h tl : String) (runs : List (List String × String)) (recs : List Histogram)
      (pre mid post : List String) (bad cnt nxt : String) (rest : List String)
      (hp nm : String) (stA : HState),
      rustLines s = h :: (tl :: (((runs.map fun r => r.1 ++ [r.2]).flatten ++
        (pre ++ bad :: (mid ++ cnt :: post))) ++ nxt :: rest)) →
      strStarts h "#" = true → strStarts tl "#" = true →
      (∀ l ∈ (runs.map fun r => r.1 ++ [r.2]).flatten ++ (pre ++ bad :: (mid ++ cnt :: post)),
        strStarts l "#" = false) →
      strStarts nxt "#" = true →
      metric_help_fron_raw h = .ok hp →
      metric_name_and_type tl = .ok (nm, MetricType.Histogram) →
      (∀ r ∈ runs, (∀ l ∈ r.1, strStarts l (nm ++ "_count") = false) ∧
        strStarts r.2 (nm ++ "_count") = true) →
      exMapM (fun r => Histogram.from_raw nm (r.1 ++ [r.2])) runs = .ok recs →
      (∀ l ∈ pre, strStarts l (nm ++ "_count") = false) →
      strStarts bad (nm ++ "_sum") = false →
      strStarts bad (nm ++ "_count") = false →
      (∀ l ∈ mid, strStarts l (nm ++ "_count") = false) →
      strStarts cnt (nm ++ "_count") = true →
      histRun nm ⟨"", "", [], []⟩ pre = .ok stA →
      findNoLabel bad.data = none →
      findWithLabel bad.data = none →
      PrometheusData.from_string s = .error (.invalidFormat bad)) ∧
    PrometheusData.from_string "# HELP m h\n# TYPE m summary\nbad line !\n# HELP n h2" =
      .ok ⟨[{ metric_type := MetricType.Summary, metric_name := "m", help := "h",
              data := [] }]⟩ ∧
    PrometheusData.from_string "# HELP m h\n# TYPE m histogram\nbad line !\n# HELP n h2" =
      .ok ⟨[{ metric_type := MetricType.Histogram, metric_name := "m", help := "h",
              data := [] }]⟩ := by
  refine ⟨?_, ?_, ?_, by decide, by decide⟩
  · intro s h tl pre post bad nxt rest hp nm e hlines hh ht hsam hnxt hhelp htype hpre hbad
    have hbadm : Metric.from_string bad = .error e := by
      unfold Metric.from_string
      rw [hbad]
      rfl
    apply pLines_flush_error s h tl (pre ++ bad :: post) nxt rest e hlines hh ht hsam hnxt
    simp only [MetricFamily.from_raw, hhelp, exbind_ok_eq, htype]
    have hsuff : exMapM Metric.from_string (pre ++ bad :: post) = .error e :=
      exMapM_error_append pre bad post hpre hbadm
    show (gaugeLines (pre ++ bad :: post)).map _ = _
    unfold gaugeLines
    rw [hsuff]
    rfl
  · intro s h tl runs recs pre mid post bad cnt nxt rest hp nm stA
      hlines hh ht hsam hnxt hhelp htype hruns hmap hpre hbs hbc hmid hcnt hpreok _hfnl hbadfw
    apply pLines_flush_error s h tl _ nxt rest _ hlines hh ht hsam hnxt
    simp only [MetricFamily.from_raw, hhelp, exbind_ok_eq, htype]
    show (summaryLines nm [] [] ((runs.map fun r => r.1 ++ [r.2]).flatten ++
      (pre ++ bad :: (mid ++ cnt :: post)))).map _ = _
    rw [summaryLines_runs_pre nm runs [] (pre ++ bad :: (mid ++ cnt :: post)) recs hruns hmap,
      List.nil_append,
      summaryLines_malformed nm (recs.map MetricLike.summary) pre mid post bad cnt stA
        hpre hbs hbc hmid hcnt hpreok hbadfw]
    rfl
  · intro s h tl runs recs pre mid post bad cnt nxt rest hp nm stA
      hlines hh ht hsam hnxt hhelp htype hruns hmap hpre hbs hbc hmid hcnt hpreok _hfnl hbadfw
    apply pLines_flush_error s h tl _ nxt rest _ hlines hh ht hsam hnxt
    simp only [MetricFamily.from_raw, hhelp, exbind_ok_eq, htype]
    show (histogramLines nm [] [] ((runs.map fun r => r.1 ++ [r.2]).flatten ++
      (pre ++ bad :: (mid ++ cnt :: post)))).map _ = _
    rw [histogramLines_runs_pre nm runs [] (pre ++ bad :: (mid ++ cnt :: post)) recs hruns hmap,
      List.nil_append,
      histogramLines_malformed nm (recs.map MetricLike.histogram) pre mid post bad cnt stA
        hpre hbs hbc hmid hcnt hpreok hbadfw]
    rfl

/-- Witness for C9's amended statement: a malformed line aborts the parse
when it sits in a flushed gauge family, and when it sits in a
`<name>_count`-terminated run of a flushed summary or histogram family. -/
theorem malformed_line_abort_spec_witness :
    PrometheusData.from_string "# HELP m h\n# TYPE m gauge\nbad line !\n# HELP n h2" =
      .error (.invalidFormat "bad line !") ∧
    PrometheusData.from_string "# HELP m h\n# TYPE m summary\nbad line !\nm_count 1\n# HELP n h2" =
      .error (.invalidFormat "bad line !") ∧
    PrometheusData.from_string "# HELP m h\n# TYPE m histogram\nbad line !\nm_count 1\n# HELP n h2" =
      .error (.invalidFormat "bad line !") :=
  ⟨malformed_line_abort_spec.1
      "# HELP m h\n# TYPE m gauge\nbad line !\n# HELP n h2"
      "# HELP m h" "# TYPE m gauge" [] [] "bad line !" "# HELP n h2" [] "h" "m"
      (.invalidFormat "bad line !")
      (by decide) (by decide) (by decide) (by decide) (by decide) (by decide) (by decide)
      (by simp) (by decide),
   malformed_line_abort_spec.2.1
      "# HELP m h\n# TYPE m summary\nbad line !\nm_count 1\n# HELP n h2"
      "# HELP m h" "# TYPE m summary" [] [] [] [] [] "bad line !" "m_count 1" "# HELP n h2" []
      "h" "m" ⟨"", "", [], []⟩
      (by decide) (by decide) (by decide) (by decide) (by decide) (by decide) (by decide)
      (by simp) rfl (by simp) (by decide) (by decide) (by simp) (by decide)
      rfl (by decide) (by decide),
   malformed_line_abort_spec.2.2.1
      "# HELP m h\n# TYPE m histogram\nbad line !\nm_count 1\n# HELP n h2"
      "# HELP m h" "# TYPE m histogram" [] [] [] [] [] "bad line !" "m_count 1" "# HELP n h2" []
      "h" "m" ⟨"", "", [], []⟩
      (by decide) (by decide) (by decide) (by decide) (by decide) (by decide) (by decide)
      (by simp) rfl (by simp) (by decide) (by decide) (by simp) (by decide)
      rfl (by decide) (by decide)⟩

/-- Witness for C8 at the concrete TYPE lines of the repository's data. -/
theorem metric_name_and_type_spec_witness :
    metric_name_and_type "# TYPE go_goroutines gauge" = .ok ("go_goroutines", MetricType.Gauge) ∧
    metric_name_and_type "# TYPE x summary" = .ok ("x", MetricType.Summary) ∧
    metric_name_and_type "# TYPE x untyped" = .error (.unknownMetricType "untyped") :=
  ⟨(metric_name_and_type_spec "# TYPE go_goroutines gauge" "go_goroutines" "gauge"
      (by decide) (by decide)).1 (Or.inl rfl),
   (metric_name_and_type_spec "# TYPE x summary" "x" "summary"
      (by decide) (by decide)).2.2.1 rfl,
   (metric_name_and_type_spec "# TYPE x untyped" "x" "untyped"
      (by decide) (by decide)).2.2.2.mpr (by decide)⟩

end Prom2Json
